import Mathlib

/-!
# ivi-logging: the backend-composition and dispatch engine

A shallow embedding of `include/ivi-logging.h`:

* `for_each_in_tuple_`, the index-driven walk over a tuple;
* the functors of `LogContextT` (`setParentContextFunctor`, `isEnabledFunctor`,
  `writeFormattedFunctor`, `registerContextFunctor`, `streamFunctor`);
* `LogContextT` (constructor, `createLog`, `isEnabled`, `checkContext`);
* `LogContextT::LogData` (constructor with `for_each_init`, `write`,
  `writeFormatted`, `operator<<`);
* the statement form `log_with_context`;
* the type-level `Extension`.

The backends are external collaborators.  A backend context type is a table
of its three methods over a state `σ`; a sub-entry (log data) type is a table
of its four methods over a state `δ`.  A tuple element is such a table
together with the current state.  Streamed values have type `V`.

A call on a tuple element changes that element only: a sub-context method
acts on the state of its sub-context, a sub-entry method on the state of its
sub-entry.  The constructor of `LogData` hands sub-entry `I` the sub-context
`I` of the owning context by reference, so every sub-entry method sees that
sub-context in the state it has at the time of the call; it reads it and does
not change it.  Destructors are not part of the embedding.

Every call that leaves the engine (into a backend sub-context, into a
sub-entry, or into `LogContextCommon`) is recorded in a ghost trace of
`Call`s.  The trace never influences control flow.
-/

namespace logging

/-! ## Declarations of `ivi-logging-common.h` -/

/-- Modelled from the spec: the severity enumeration `LogLevel` of
`ivi-logging-common.h`, which is not part of the sources at hand.  The spec
names the levels Fatal, Error, Warning, Info, Verbose and Debug. -/
inductive LogLevel where
  | Fatal
  | Error
  | Warning
  | Info
  | Verbose
  | Debug
  deriving DecidableEq, Repr

/-- Modelled from the spec: the record metadata `LogInfo` of
`ivi-logging-common.h` (severity, source file, line number, enclosing
function), built by `LogInfo(level, fileName, lineNumber, prettyFunction)`. -/
structure LogInfo where
  m_level : LogLevel
  m_fileName : String
  m_lineNumber : Int
  m_prettyFunction : String
  deriving DecidableEq, Repr

/-- The accessor `LogInfo::getLogLevel` used by `LogData::write`. -/
def LogInfo.getLogLevel (log : LogInfo) : LogLevel := log.m_level

/-- Modelled from the spec: the base class `LogContextCommon` of
`ivi-logging-common.h`, holding the short ID and the description a context is
constructed with. -/
structure LogContextCommon where
  m_id : String
  m_description : String
  deriving DecidableEq, Repr

/-! ## Backends -/

/-- The methods the engine calls on a backend sub-context (an element of
`std::tuple<ContextTypes...>`), over the sub-context state `σ`.
`isEnabled(level)` returns its answer together with the state it leaves
behind, so that a backend whose enablement changes between two queries is
covered. -/
structure ContextType (σ : Type) where
  /-- state of a default-constructed sub-context -/
  fresh : σ
  setParentContext : σ → LogContextCommon → σ
  registerContext : σ → σ
  isEnabled : σ → LogLevel → Bool × σ

/-- The methods the engine calls on a sub-entry (an element of
`std::tuple<LogDataTypes...>`), over the sub-entry state `δ`.  `init` is
handed the sub-context; the other methods get the current state of the
sub-context the sub-entry was handed (`none` for a sub-entry that was handed
none), which a sub-entry that rechecks its sub-context consults.  `append` is
the sub-entry's `operator<<`. -/
structure DataType (σ δ V : Type) where
  /-- state of a default-constructed sub-entry -/
  fresh : δ
  init : δ → σ → LogInfo → δ
  isEnabled : δ → Option σ → Bool
  append : δ → Option σ → V → δ
  writeFormatted : δ → Option σ → String → List V → δ

/-- An element of `m_contexts` of a context: static type and current state. -/
structure ContextObj (σ : Type) where
  vt : ContextType σ
  st : σ

/-- An element of `m_contexts` of a `LogData`: static type and current state. -/
structure DataObj (σ δ V : Type) where
  vt : DataType σ δ V
  st : δ

/-- A call leaving the engine.  The number is the tuple index of the
sub-context or sub-entry that receives the call. -/
inductive Call (V : Type) where
  | setDefaultAPPIDSIfNeeded
  | setParentContext (i : Nat)
  | registerContext (i : Nat)
  | isEnabled (i : Nat) (level : LogLevel)
  | init (i : Nat) (log : LogInfo)
  | dataIsEnabled (i : Nat)
  | append (i : Nat) (v : V)
  | writeFormatted (i : Nat) (format : String) (args : List V)
  deriving DecidableEq, Repr

/-! ## `for_each_in_tuple_` -/

/-- The template `for_each_in_tuple_<I>(tpl, func, args...)`: when `I` equals
the tuple size it does nothing, otherwise it calls `func(std::get<I>(tpl),
args...)` and continues with `I + 1`.  The tuple element is passed by
reference, so the updated element is stored back; `env` is everything else the
functor can write to (what it captured by reference, and the ghost trace).
The functor is told the index to tag the trace and, for a sub-entry, to
follow the reference to its sub-context. -/
def for_each_in_tuple_ {τ κ : Type} (I : Nat) (tpl : List τ)
    (func : Nat → τ → κ → τ × κ) (env : κ) : List τ × κ :=
  if h : I < tpl.length then
    let r := func I (tpl.get ⟨I, h⟩) env
    for_each_in_tuple_ (I + 1) (tpl.set I r.1) func r.2
  else
    (tpl, env)
termination_by tpl.length - I
decreasing_by
  simp_wf
  omega

/-! ## The functors of `LogContextT` -/

section Functors

variable {σ δ V : Type}

/-- What the reference held by sub-entry `I` points to: the current state of
sub-context `I` of the owning context, whose tuple is `cs`. -/
def subContextOf (cs : List (ContextObj σ)) (I : Nat) : Option σ :=
  (cs[I]?).map ContextObj.st

/-- Functor `setParentContextFunctor`: `t.setParentContext(parent)`. -/
def setParentContextFunctor (parent : LogContextCommon) (I : Nat) (t : ContextObj σ)
    (tr : List (Call V)) : ContextObj σ × List (Call V) :=
  ({ t with st := t.vt.setParentContext t.st parent }, tr ++ [Call.setParentContext I])

/-- Functor `isEnabledFunctor`: `m_isEnabled |= t.isEnabled(level)`.  The
environment is the referenced flag `m_isEnabled` and the trace. -/
def isEnabledFunctor (level : LogLevel) (I : Nat) (t : ContextObj σ)
    (env : Bool × List (Call V)) : ContextObj σ × (Bool × List (Call V)) :=
  let r := t.vt.isEnabled t.st level
  ({ t with st := r.2 }, (env.1 || r.1, env.2 ++ [Call.isEnabled I level]))

/-- Functor `writeFormattedFunctor`:
`if (t.isEnabled()) t.writeFormatted(format, args...)`.  `cs` is the tuple of
the owning context, which the sub-entries refer to. -/
def writeFormattedFunctor (cs : List (ContextObj σ)) (format : String) (args : List V)
    (I : Nat) (t : DataObj σ δ V) (tr : List (Call V)) : DataObj σ δ V × List (Call V) :=
  if t.vt.isEnabled t.st (subContextOf cs I) then
    ({ t with st := t.vt.writeFormatted t.st (subContextOf cs I) format args },
      tr ++ [Call.dataIsEnabled I, Call.writeFormatted I format args])
  else
    (t, tr ++ [Call.dataIsEnabled I])

/-- Functor `registerContextFunctor`: `t.registerContext()`. -/
def registerContextFunctor (I : Nat) (t : ContextObj σ)
    (tr : List (Call V)) : ContextObj σ × List (Call V) :=
  ({ t with st := t.vt.registerContext t.st }, tr ++ [Call.registerContext I])

/-- Functor `streamFunctor`: `if (t.isEnabled()) t << v`.  `cs` is the tuple
of the owning context, which the sub-entries refer to. -/
def streamFunctor (cs : List (ContextObj σ)) (v : V) (I : Nat) (t : DataObj σ δ V)
    (tr : List (Call V)) : DataObj σ δ V × List (Call V) :=
  if t.vt.isEnabled t.st (subContextOf cs I) then
    ({ t with st := t.vt.append t.st (subContextOf cs I) v },
      tr ++ [Call.dataIsEnabled I, Call.append I v])
  else
    (t, tr ++ [Call.dataIsEnabled I])

end Functors

/-! ## `LogContextT` and `LogContextT::LogData` -/

section Classes

variable {σ δ V : Type}

/-- The two template arguments of `LogContextT`: the pack `ContextTypes...`
and the pack `LogDataTypes...`, each wrapped in a `TypeSet`. -/
structure TypeSets (σ δ V : Type) where
  ContextTypes : List (ContextType σ)
  LogDataTypes : List (DataType σ δ V)

/-- The alias `Extension<ExtraContextType, ExtraDataType>`:
`LogContextT<TypeSet<ContextTypes..., ExtraContextType>,
TypeSet<LogDataTypes..., ExtraDataType>>`. -/
def TypeSets.Extension (T : TypeSets σ δ V) (ExtraContextType : ContextType σ)
    (ExtraDataType : DataType σ δ V) : TypeSets σ δ V :=
  { ContextTypes := T.ContextTypes ++ [ExtraContextType]
    LogDataTypes := T.LogDataTypes ++ [ExtraDataType] }

/-- The typedef `NoLoggingLogContext`: `LogContextT<TypeSet<>, TypeSet<>>`. -/
def NoLoggingLogContext : TypeSets σ δ V :=
  { ContextTypes := [], LogDataTypes := [] }

/-- An object of class `LogContextT<TypeSet<ContextTypes...>,
TypeSet<LogDataTypes...>>`.  `ContextTypes...` is carried by the elements of
`m_contexts`; `LogDataTypes...` is what a `LogData` of this context is built
from. -/
structure LogContextT (σ δ V : Type) where
  toLogContextCommon : LogContextCommon
  LogDataTypes : List (DataType σ δ V)
  m_contexts : List (ContextObj σ)
  m_bRegistered : Bool

/-- An object of the nested class `LogData`.  The member `m_context` is a
reference to the owning context, and so are the references the sub-entries
hold to its sub-contexts; the methods take the context as an argument, and
`write`, which changes it, returns it. -/
structure LogData (σ δ V : Type) where
  toLogInfo : LogInfo
  m_contexts : List (DataObj σ δ V)

/-- The constructor `LogContextT(id, contextDescription)`: the members are
default-constructed (`m_bRegistered = false`), then
`for_each_in_tuple_(m_contexts, setParentContextFunctor(), *this)`. -/
def LogContextT.new (T : TypeSets σ δ V) (id contextDescription : String)
    (tr : List (Call V)) : LogContextT σ δ V × List (Call V) :=
  let base : LogContextCommon := { m_id := id, m_description := contextDescription }
  let r := for_each_in_tuple_ 0 (T.ContextTypes.map fun B => ({ vt := B, st := B.fresh } : ContextObj σ))
    (setParentContextFunctor base) tr
  ({ toLogContextCommon := base, LogDataTypes := T.LogDataTypes, m_contexts := r.1,
     m_bRegistered := false }, r.2)

/-- Method `checkContext`: when `m_bRegistered` is not set, calls
`setDefaultAPPIDSIfNeeded()`, then `registerContext()` on every sub-context,
then sets `m_bRegistered`. -/
def LogContextT.checkContext (c : LogContextT σ δ V) (tr : List (Call V)) :
    LogContextT σ δ V × List (Call V) :=
  if !c.m_bRegistered then
    let r := for_each_in_tuple_ 0 c.m_contexts registerContextFunctor
      (tr ++ [Call.setDefaultAPPIDSIfNeeded])
    ({ c with m_contexts := r.1, m_bRegistered := true }, r.2)
  else
    (c, tr)

/-- Method `isEnabled(level)`: `checkContext()`, then `enabled = false` and
`for_each_in_tuple_(m_contexts, isEnabledFunctor(enabled), level)`. -/
def LogContextT.isEnabled (c : LogContextT σ δ V) (level : LogLevel) (tr : List (Call V)) :
    Bool × LogContextT σ δ V × List (Call V) :=
  let r0 := c.checkContext tr
  let r := for_each_in_tuple_ 0 r0.1.m_contexts (isEnabledFunctor level) (false, r0.2)
  (r.2.1, { r0.1 with m_contexts := r.1 }, r.2.2)

/-- The member template `LogData::for_each_init<I>(tpl, context, args...)`:
when `I` equals `sizeof...(ContextTypes)` it does nothing, otherwise
`std::get<I>(tpl).init(std::get<I>(context.m_contexts), args...)` and on with
`I + 1`.  An instantiation whose data tuple is shorter than the context tuple
does not compile; the walk stops there. -/
def LogData.for_each_init (I : Nat) (tpl : List (DataObj σ δ V)) (context : LogContextT σ δ V)
    (log : LogInfo) (tr : List (Call V)) : List (DataObj σ δ V) × List (Call V) :=
  if h : I < context.m_contexts.length then
    match tpl[I]? with
    | some d =>
      LogData.for_each_init (I + 1)
        (tpl.set I { d with st := d.vt.init d.st (context.m_contexts.get ⟨I, h⟩).st log })
        context log (tr ++ [Call.init I log])
    | none => (tpl, tr)
  else
    (tpl, tr)
termination_by context.m_contexts.length - I
decreasing_by
  simp_wf
  omega

/-- The constructor `LogData(context, level, fileName, lineNumber,
prettyFunction)`: base `LogInfo(level, fileName, lineNumber,
prettyFunction)`, default-constructed sub-entries, then
`for_each_init(m_contexts, context, *this)`. -/
def LogData.new (context : LogContextT σ δ V) (level : LogLevel) (fileName : String)
    (lineNumber : Int) (prettyFunction : String) (tr : List (Call V)) :
    LogData σ δ V × List (Call V) :=
  let log : LogInfo :=
    { m_level := level, m_fileName := fileName, m_lineNumber := lineNumber,
      m_prettyFunction := prettyFunction }
  let r := LogData.for_each_init 0
    (context.LogDataTypes.map fun D => ({ vt := D, st := D.fresh } : DataObj σ δ V)) context log tr
  ({ toLogInfo := log, m_contexts := r.1 }, r.2)

/-- Method `createLog(level, fileName, lineNumber, prettyFunction)`:
`return LogData(*this, level, fileName, lineNumber, prettyFunction)`. -/
def LogContextT.createLog (c : LogContextT σ δ V) (level : LogLevel) (fileName : String)
    (lineNumber : Int) (prettyFunction : String) (tr : List (Call V)) :
    LogData σ δ V × List (Call V) :=
  LogData.new c level fileName lineNumber prettyFunction tr

/-- The `operator<<(const Type& v)` of `LogData`:
`for_each_in_tuple_(m_contexts, streamFunctor(), v)`.  `context` is the
owning context. -/
def LogData.stream (d : LogData σ δ V) (context : LogContextT σ δ V) (v : V)
    (tr : List (Call V)) : LogData σ δ V × List (Call V) :=
  let r := for_each_in_tuple_ 0 d.m_contexts (streamFunctor context.m_contexts v) tr
  ({ d with m_contexts := r.1 }, r.2)

/-- Method `writeFormatted(format, args...)` of `LogData`:
`for_each_in_tuple_(m_contexts, writeFormattedFunctor(), format, args...)`.
`context` is the owning context. -/
def LogData.writeFormatted (d : LogData σ δ V) (context : LogContextT σ δ V) (format : String)
    (args : List V) (tr : List (Call V)) : LogData σ δ V × List (Call V) :=
  let r := for_each_in_tuple_ 0 d.m_contexts
    (writeFormattedFunctor context.m_contexts format args) tr
  ({ d with m_contexts := r.1 }, r.2)

/-- Method `write(args...)` of `LogData`.  With no argument it returns; with
`firstArg, remainingArguments...` it asks `m_context.isEnabled(getLogLevel())`
and, when that is true, does `*this << firstArg` and goes on with
`write(remainingArguments...)`.  `context` is the object `m_context` refers
to. -/
def LogData.write (d : LogData σ δ V) (context : LogContextT σ δ V) :
    List V → List (Call V) → LogData σ δ V × LogContextT σ δ V × List (Call V)
  | [], tr => (d, context, tr)
  | firstArg :: remainingArguments, tr =>
    let e := context.isEnabled d.toLogInfo.getLogLevel tr
    if e.1 then
      let s := d.stream e.2.1 firstArg e.2.2
      LogData.write s.1 e.2.1 remainingArguments s.2
    else
      (d, e.2.1, e.2.2)

/-- An object of type `NoLoggingLogContext`: both tuples are empty; the only
state is the registration flag. -/
def noLoggingObject (base : LogContextCommon) (registered : Bool) : LogContextT σ δ V :=
  { toLogContextCommon := base, LogDataTypes := [], m_contexts := [],
    m_bRegistered := registered }

/-- The chain `builder << v1 << ... << vn`: `operator<<` returns `*this`, so
each value is streamed into the builder the previous one left.  `context` is
the owning context. -/
def LogData.streamAll (d : LogData σ δ V) (context : LogContextT σ δ V) :
    List V → List (Call V) → LogData σ δ V × List (Call V)
  | [], tr => (d, tr)
  | v :: vs, tr =>
    LogData.streamAll (d.stream context v tr).1 context vs (d.stream context v tr).2

/-- The steps of `write` with the outcome of the checks left aside: for each
value in turn, `m_context.isEnabled(getLogLevel())` is evaluated and then
`*this << value` is done. -/
def LogData.checkedChain (d : LogData σ δ V) (context : LogContextT σ δ V) :
    List V → List (Call V) → LogData σ δ V × LogContextT σ δ V × List (Call V)
  | [], tr => (d, context, tr)
  | v :: vs, tr =>
    LogData.checkedChain
      (d.stream (context.isEnabled d.toLogInfo.getLogLevel tr).2.1 v
        (context.isEnabled d.toLogInfo.getLogLevel tr).2.2).1
      (context.isEnabled d.toLogInfo.getLogLevel tr).2.1 vs
      (d.stream (context.isEnabled d.toLogInfo.getLogLevel tr).2.1 v
        (context.isEnabled d.toLogInfo.getLogLevel tr).2.2).2

/-- Whether every check made along `checkedChain` returns true. -/
def LogData.allChecksTrue (d : LogData σ δ V) (context : LogContextT σ δ V) :
    List V → List (Call V) → Bool
  | [], _ => true
  | v :: vs, tr =>
    (context.isEnabled d.toLogInfo.getLogLevel tr).1
      && LogData.allChecksTrue
        (d.stream (context.isEnabled d.toLogInfo.getLogLevel tr).2.1 v
          (context.isEnabled d.toLogInfo.getLogLevel tr).2.2).1
        (context.isEnabled d.toLogInfo.getLogLevel tr).2.1 vs
        (d.stream (context.isEnabled d.toLogInfo.getLogLevel tr).2.1 v
          (context.isEnabled d.toLogInfo.getLogLevel tr).2.2).2

/-- The number of leading arguments of `write(args...)` whose check returns
true. -/
def LogData.enabledRun (d : LogData σ δ V) (context : LogContextT σ δ V) :
    List V → List (Call V) → Nat
  | [], _ => 0
  | v :: vs, tr =>
    if (context.isEnabled d.toLogInfo.getLogLevel tr).1 then
      LogData.enabledRun
        (d.stream (context.isEnabled d.toLogInfo.getLogLevel tr).2.1 v
          (context.isEnabled d.toLogInfo.getLogLevel tr).2.2).1
        (context.isEnabled d.toLogInfo.getLogLevel tr).2.1 vs
        (d.stream (context.isEnabled d.toLogInfo.getLogLevel tr).2.1 v
          (context.isEnabled d.toLogInfo.getLogLevel tr).2.2).2 + 1
    else 0

/-! ## The statement form `log_with_context` -/

/-- What one execution of a `log_with_context` statement leaves behind: the
context, the entry builders the statement constructed (in order, in the state
they had when the statement body finished), and the trace. -/
structure StmtState (σ δ V : Type) where
  context : LogContextT σ δ V
  built : List (LogData σ δ V)
  trace : List (Call V)

/-- The loop of `log_with_context(_context_, severity)`:
`for (auto dummy = &(_context_); (dummy != nullptr) && dummy->isEnabled(severity);
dummy = nullptr) (_context_).createLog(severity, __FILE__, __LINE__,
__PRETTY_FUNCTION__) rest;`.  `dummy` is true while the pointer is not null;
`rest` is what the call site writes after the form (`<< a << b`, or a
`.write(...)`), acting on the builder and on the context it refers to. -/
def log_with_context_loop (severity : LogLevel) (fileName : String) (lineNumber : Int)
    (prettyFunction : String)
    (rest : LogData σ δ V → LogContextT σ δ V → List (Call V) →
      LogData σ δ V × LogContextT σ δ V × List (Call V))
    (dummy : Bool) (s : StmtState σ δ V) : StmtState σ δ V :=
  if dummy = true then
    let e := s.context.isEnabled severity s.trace
    if e.1 then
      let b := e.2.1.createLog severity fileName lineNumber prettyFunction e.2.2
      let r := rest b.1 e.2.1 b.2
      log_with_context_loop severity fileName lineNumber prettyFunction rest false
        { context := r.2.1, built := s.built ++ [r.1], trace := r.2.2 }
    else
      { s with context := e.2.1, trace := e.2.2 }
  else
    s
termination_by (if dummy = true then 1 else 0)
decreasing_by
  simp_wf
  simp_all

/-- One execution of the statement `log_with_context(_context_, severity) rest;`:
the loop entered with `dummy = &(_context_)`. -/
def log_with_context (context : LogContextT σ δ V) (severity : LogLevel) (fileName : String)
    (lineNumber : Int) (prettyFunction : String)
    (rest : LogData σ δ V → LogContextT σ δ V → List (Call V) →
      LogData σ δ V × LogContextT σ δ V × List (Call V))
    (tr : List (Call V)) : StmtState σ δ V :=
  log_with_context_loop severity fileName lineNumber prettyFunction rest true
    { context := context, built := [], trace := tr }

/-! ## Sequences of calls -/

/-- A call a program makes on a context or on the entry builder it holds. -/
inductive Op (V : Type) where
  | isEnabled (level : LogLevel)
  | createLog (level : LogLevel) (fileName : String) (lineNumber : Int) (prettyFunction : String)
  | stream (v : V)
  | write (args : List V)
  | writeFormatted (format : String) (args : List V)

/-- A context, the entry builder most recently obtained from it (if any), and
the trace. -/
structure RunState (σ δ V : Type) where
  context : LogContextT σ δ V
  builder : Option (LogData σ δ V)
  trace : List (Call V)

/-- One call.  `createLog` replaces the builder held; a builder call acts on
the builder held, and is skipped when none has been created (there is no
object to call). -/
def step (s : RunState σ δ V) : Op V → RunState σ δ V
  | .isEnabled level =>
    let e := s.context.isEnabled level s.trace
    { s with context := e.2.1, trace := e.2.2 }
  | .createLog level fileName lineNumber prettyFunction =>
    let b := s.context.createLog level fileName lineNumber prettyFunction s.trace
    { s with builder := some b.1, trace := b.2 }
  | .stream v =>
    match s.builder with
    | some d =>
      let r := d.stream s.context v s.trace
      { s with builder := some r.1, trace := r.2 }
    | none => s
  | .write args =>
    match s.builder with
    | some d =>
      let r := d.write s.context args s.trace
      { context := r.2.1, builder := some r.1, trace := r.2.2 }
    | none => s
  | .writeFormatted format args =>
    match s.builder with
    | some d =>
      let r := d.writeFormatted s.context format args s.trace
      { s with builder := some r.1, trace := r.2 }
    | none => s

/-- A sequence of calls, in order. -/
def run (s : RunState σ δ V) (ops : List (Op V)) : RunState σ δ V :=
  ops.foldl step s

/-! ## Reading the trace -/

/-- The values appended to sub-entry `i`, in order. -/
def appendsTo (i : Nat) (tr : List (Call V)) : List V :=
  tr.filterMap fun c =>
    match c with
    | .append j v => if j = i then some v else none
    | _ => none

/-- The formatted writes made on sub-entry `i`, in order. -/
def formattedTo (i : Nat) (tr : List (Call V)) : List (String × List V) :=
  tr.filterMap fun c =>
    match c with
    | .writeFormatted j format args => if j = i then some (format, args) else none
    | _ => none

/-- The `init` calls made on sub-entries with index `i`, in order. -/
def initsOf (i : Nat) (tr : List (Call V)) : List LogInfo :=
  tr.filterMap fun c =>
    match c with
    | .init j log => if j = i then some log else none
    | _ => none

/-- The number of `registerContext` calls made on sub-context `i`. -/
def registrations (i : Nat) (tr : List (Call V)) : Nat :=
  (tr.filterMap fun c =>
    match c with
    | .registerContext j => if j = i then some () else none
    | _ => none).length

/-- Whether a call goes into a backend (a sub-context or a sub-entry). -/
def Call.isBackendCall : Call V → Bool
  | .setDefaultAPPIDSIfNeeded => false
  | _ => true

/-- The calls of a trace that go into a backend. -/
def backendCalls (tr : List (Call V)) : List (Call V) :=
  tr.filter Call.isBackendCall

/-- A chain of extensions: `T::Extension<B1, D1>::Extension<B2, D2>...`, one
`Extension` per pair, in the order the pairs are attached. -/
def TypeSets.extendAll (T : TypeSets σ δ V) (extras : List (ContextType σ × DataType σ δ V)) :
    TypeSets σ δ V :=
  extras.foldl (fun U p => U.Extension p.1 p.2) T

/-- What `std::ostream::operator<<(int)` writes with the stream in its default
state: the decimal digits of the value, after a `-` when it is negative. -/
def ostreamInt (n : Int) : String := toString n

/-- What `std::ostream << c` writes for a character type holding the code
`code`: that one character. -/
def ostreamChar (code : Nat) : String := String.singleton (Char.ofNat code)

/-- The part of `std::stringstream` that `StringBuilder` relies on, over the
format state `φ` of a stream (conversion base, flags, width, fill): the state
of a default-constructed stream, and what `<< int` writes in a given state
together with the state it leaves.  In the default state an `int` is written
as `ostreamInt` gives it, and the state is left as it is. -/
structure StreamModel (φ : Type) where
  initial : φ
  writeInt : φ → Int → String × φ
  writeInt_initial : ∀ n, writeInt initial n = (ostreamInt n, initial)

/-- A `std::stringstream`: the characters written so far and the format
state. -/
structure StringStream (φ : Type) where
  text : String
  format : φ

/-- Class `StringBuilder`: the member `m_stream`. -/
structure StringBuilder (φ : Type) where
  m_stream : StringStream φ

/-- A default-constructed `StringBuilder`. -/
def StringBuilder.empty {φ : Type} (M : StreamModel φ) : StringBuilder φ :=
  { m_stream := { text := "", format := M.initial } }

/-- The template `operator<<(const Type& v)`: `m_stream << v`.  `write v` is
what the stream does for a value of that type in a given format state: the
characters it writes and the state it leaves (a manipulator such as
`std::hex` writes nothing and changes the state). -/
def StringBuilder.stream {φ α : Type} (sb : StringBuilder φ) (write : α → φ → String × φ)
    (v : α) : StringBuilder φ :=
  { m_stream :=
      { text := sb.m_stream.text ++ (write v sb.m_stream.format).1
        format := (write v sb.m_stream.format).2 } }

/-- The overload `operator<<(const uint8_t& v)`: `m_stream << (int)v`.  A
`uint8_t` holds `v % 256`; the conversion to `int` keeps the value. -/
def StringBuilder.streamUInt8 {φ : Type} (sb : StringBuilder φ) (M : StreamModel φ) (v : Nat) :
    StringBuilder φ :=
  { m_stream :=
      { text := sb.m_stream.text ++ (M.writeInt sb.m_stream.format ((v % 256 : Nat) : Int)).1
        format := (M.writeInt sb.m_stream.format ((v % 256 : Nat) : Int)).2 } }

/-- The overload `operator<<(const int8_t& v)`: `m_stream << (int)v`.  An
`int8_t` holds the value wrapped into `-128..127`; the conversion to `int`
keeps the value. -/
def StringBuilder.streamInt8 {φ : Type} (sb : StringBuilder φ) (M : StreamModel φ) (v : Int) :
    StringBuilder φ :=
  { m_stream :=
      { text := sb.m_stream.text ++ (M.writeInt sb.m_stream.format ((v + 128) % 256 - 128)).1
        format := (M.writeInt sb.m_stream.format ((v + 128) % 256 - 128)).2 } }

/-- Method `str()`: `m_stream.str()`. -/
def StringBuilder.str {φ : Type} (sb : StringBuilder φ) : String := sb.m_stream.text

/-! ## A context seen through its first `n` backends -/

/-- The tuple index of the sub-context or sub-entry that receives a call;
`setDefaultAPPIDSIfNeeded` goes to `LogContextCommon`, not to a tuple
element. -/
def Call.receiver : Call V → Option Nat
  | .setDefaultAPPIDSIfNeeded => none
  | .setParentContext i => some i
  | .registerContext i => some i
  | .isEnabled i _ => some i
  | .init i _ => some i
  | .dataIsEnabled i => some i
  | .append i _ => some i
  | .writeFormatted i _ _ => some i

/-- The calls of a trace that are not received by a tuple element of index
`n` or more: what the first `n` backends (and `LogContextCommon`) see, in
order. -/
def callsBelow (n : Nat) (tr : List (Call V)) : List (Call V) :=
  tr.filter fun c =>
    match c.receiver with
    | some i => decide (i < n)
    | none => true

/-- A context reduced to its first `n` backends. -/
def LogContextT.firstN (n : Nat) (c : LogContextT σ δ V) : LogContextT σ δ V :=
  { c with LogDataTypes := c.LogDataTypes.take n, m_contexts := c.m_contexts.take n }

/-- An entry builder reduced to its first `n` sub-entries. -/
def LogData.firstN (n : Nat) (d : LogData σ δ V) : LogData σ δ V :=
  { d with m_contexts := d.m_contexts.take n }

/-- A run state reduced to the first `n` backends: their sub-contexts, their
sub-entries, and the calls they receive. -/
def RunState.firstN (n : Nat) (s : RunState σ δ V) : RunState σ δ V :=
  { context := s.context.firstN n
    builder := s.builder.map (LogData.firstN n)
    trace := callsBelow n s.trace }

/-- The state of a program that has just constructed a context of type `T`
and holds no entry builder. -/
def RunState.start (T : TypeSets σ δ V) (id contextDescription : String) : RunState σ δ V :=
  { context := (LogContextT.new T id contextDescription []).1
    builder := none
    trace := (LogContextT.new T id contextDescription []).2 }

/-- Whether, along `write(args...)`, every check gives the answer that the
check of the first `n` backends alone gives: the checks are those `write`
makes, on the context as the steps before left it. -/
def LogData.checksAgree (n : Nat) (d : LogData σ δ V) (context : LogContextT σ δ V) :
    List V → List (Call V) → Bool
  | [], _ => true
  | firstArg :: remainingArguments, tr =>
    (((context.firstN n).isEnabled d.toLogInfo.getLogLevel tr).1
        == (context.isEnabled d.toLogInfo.getLogLevel tr).1)
      && (if (context.isEnabled d.toLogInfo.getLogLevel tr).1 then
            LogData.checksAgree n
              (d.stream (context.isEnabled d.toLogInfo.getLogLevel tr).2.1 firstArg
                (context.isEnabled d.toLogInfo.getLogLevel tr).2.2).1
              (context.isEnabled d.toLogInfo.getLogLevel tr).2.1 remainingArguments
              (d.stream (context.isEnabled d.toLogInfo.getLogLevel tr).2.1 firstArg
                (context.isEnabled d.toLogInfo.getLogLevel tr).2.2).2
          else true)

/-- Whether, along a sequence of calls, every check made by a `write` gives
the answer that the check of the first `n` backends alone gives. -/
def RunState.checksAgree (n : Nat) : RunState σ δ V → List (Op V) → Bool
  | _, [] => true
  | s, op :: ops =>
    (match op, s.builder with
      | .write args, some d => d.checksAgree n s.context args s.trace
      | _, _ => true)
      && RunState.checksAgree n (step s op) ops

/-- The context after `k` evaluations of `isEnabled(level)`. -/
def LogContextT.afterChecks (level : LogLevel) : Nat → LogContextT σ δ V → LogContextT σ δ V
  | 0, c => c
  | k + 1, c => LogContextT.afterChecks level k (c.isEnabled level []).2.1

/-- A sub-entry type answers `isEnabled()` and appends in the same way
whether its sub-context is in state `s` or in state `s2`. -/
def DataType.sameOn (D : DataType σ δ V) (s s2 : Option σ) : Prop :=
  ∀ (st : δ) (v : V), D.isEnabled st s = D.isEnabled st s2 ∧ D.append st s v = D.append st s2 v

/-- Every sub-entry of the builder answers and appends on its sub-context in
`c2` as on its sub-context in `c`. -/
def LogData.sameView (d : LogData σ δ V) (c c2 : LogContextT σ δ V) : Prop :=
  ∀ (j : Nat) (t : DataObj σ δ V), d.m_contexts[j]? = some t →
    t.vt.sameOn (subContextOf c.m_contexts j) (subContextOf c2.m_contexts j)

/-- The sub-entry state after the values are appended in order, each paired
with the state its sub-context has at that append. -/
def DataType.appendAll (D : DataType σ δ V) (st : δ) (items : List (Option σ × V)) : δ :=
  items.foldl (fun acc p => D.append acc p.1 p.2) st

/-- The severities of the `isEnabled` calls of a sequence, in order. -/
def checkLevels (ops : List (Op V)) : List LogLevel :=
  ops.filterMap fun op =>
    match op with
    | .isEnabled level => some level
    | _ => none

/-! ## `checkContext` run by several threads

`checkContext` reads `m_bRegistered` and, when it is not set, runs the body
of the `if`, which ends by setting it.  The flag is a plain `bool` and the
method takes no lock, so another thread can run between the read and the
body.  A schedule names, step by step, the thread that moves next. -/

/-- The test of `checkContext`: `!m_bRegistered`. -/
def LogContextT.checkContextTest (c : LogContextT σ δ V) : Bool :=
  !c.m_bRegistered

/-- The body of the `if` of `checkContext`: `setDefaultAPPIDSIfNeeded()`,
`registerContext()` on every sub-context, `m_bRegistered = true`. -/
def LogContextT.checkContextBody (c : LogContextT σ δ V) (tr : List (Call V)) :
    LogContextT σ δ V × List (Call V) :=
  let r := for_each_in_tuple_ 0 c.m_contexts registerContextFunctor
    (tr ++ [Call.setDefaultAPPIDSIfNeeded])
  ({ c with m_contexts := r.1, m_bRegistered := true }, r.2)

/-- Where a thread is in `checkContext`: before the test, past a test that
found the flag not set and before the body, or past the method. -/
inductive CheckPc where
  | atTest
  | inBody
  | past
  deriving DecidableEq, Repr

/-- A context shared by threads that are each somewhere in `checkContext`. -/
structure Race (σ δ V : Type) where
  context : LogContextT σ δ V
  trace : List (Call V)
  pcs : List CheckPc

/-- Thread `k` moves: at the test it reads the flag; before the body it runs
the body and leaves the method. -/
def Race.step (r : Race σ δ V) (k : Nat) : Race σ δ V :=
  match r.pcs[k]? with
  | some CheckPc.atTest =>
    { r with pcs := r.pcs.set k (if r.context.checkContextTest then CheckPc.inBody
        else CheckPc.past) }
  | some CheckPc.inBody =>
    { context := (r.context.checkContextBody r.trace).1
      trace := (r.context.checkContextBody r.trace).2
      pcs := r.pcs.set k CheckPc.past }
  | _ => r

/-- The threads move as the schedule says. -/
def Race.run (r : Race σ δ V) (schedule : List Nat) : Race σ δ V :=
  schedule.foldl Race.step r

/-- `threads` threads about to enter `checkContext` on the context `c`. -/
def Race.start (c : LogContextT σ δ V) (tr : List (Call V)) (threads : Nat) : Race σ δ V :=
  { context := c, trace := tr, pcs := List.replicate threads CheckPc.atTest }

/-! ## The walks, by recursion on the elements still to visit

These present `for_each_in_tuple_` and `for_each_init` without index
arithmetic; they are proved equal to the index-driven definitions below and
are what the proofs compute with. -/

/-- The walk of `for_each_in_tuple_` from index `I` over the elements `I`,
`I + 1`, ... of the tuple. -/
def forEachFrom {τ κ : Type} (func : Nat → τ → κ → τ × κ) : Nat → List τ → κ → List τ × κ
  | _, [], env => ([], env)
  | I, t :: ts, env =>
    let r := func I t env
    let r2 := forEachFrom func (I + 1) ts r.2
    (r.1 :: r2.1, r2.2)

/-- The walk of `for_each_init` from index `I`: `ds` are the sub-entries and
`cs` the sub-contexts from index `I` on. -/
def initFrom (log : LogInfo) :
    Nat → List (DataObj σ δ V) → List (ContextObj σ) → List (Call V) →
      List (DataObj σ δ V) × List (Call V)
  | _, ds, [], tr => (ds, tr)
  | _, [], _ :: _, tr => ([], tr)
  | I, d :: ds, c :: cs, tr =>
    let r := initFrom log (I + 1) ds cs (tr ++ [Call.init I log])
    ({ d with st := d.vt.init d.st c.st log } :: r.1, r.2)

/-- The calls made by a walk whose functor makes the calls `ev I t` on
element `t` at index `I`. -/
def callsFrom {τ : Type} (ev : Nat → τ → List (Call V)) : Nat → List τ → List (Call V)
  | _, [] => []
  | I, t :: ts => ev I t ++ callsFrom ev (I + 1) ts

/-! ## What a single call does to a tuple element -/

/-- The sub-context after `registerContext()`. -/
def ContextObj.registered (t : ContextObj σ) : ContextObj σ :=
  { t with st := t.vt.registerContext t.st }

/-- The answer of the sub-context to `isEnabled(level)`. -/
def ContextObj.answer (level : LogLevel) (t : ContextObj σ) : Bool :=
  (t.vt.isEnabled t.st level).1

/-- The sub-context after `isEnabled(level)`. -/
def ContextObj.queried (level : LogLevel) (t : ContextObj σ) : ContextObj σ :=
  { t with st := (t.vt.isEnabled t.st level).2 }

/-- The sub-context after `setParentContext(parent)`. -/
def ContextObj.withParent (parent : LogContextCommon) (t : ContextObj σ) : ContextObj σ :=
  { t with st := t.vt.setParentContext t.st parent }

/-- The answer of the sub-entry to `isEnabled()`, its sub-context being in
state `sub`. -/
def DataObj.enabled (t : DataObj σ δ V) (sub : Option σ) : Bool :=
  t.vt.isEnabled t.st sub

/-- The sub-entry after `init(c, log)`. -/
def DataObj.inited (log : LogInfo) (d : DataObj σ δ V) (c : ContextObj σ) : DataObj σ δ V :=
  { d with st := d.vt.init d.st c.st log }

/-- The sub-entry after `operator<<(v)`, its sub-context being in state
`sub`. -/
def DataObj.appended (t : DataObj σ δ V) (sub : Option σ) (v : V) : DataObj σ δ V :=
  { t with st := t.vt.append t.st sub v }

/-- The sub-entry after `writeFormatted(format, args...)`, its sub-context
being in state `sub`. -/
def DataObj.formatted (t : DataObj σ δ V) (sub : Option σ) (format : String) (args : List V) :
    DataObj σ δ V :=
  { t with st := t.vt.writeFormatted t.st sub format args }

/-- The sub-entry at index `J` after the body of `streamFunctor`. -/
def DataObj.streamed (cs : List (ContextObj σ)) (v : V) (J : Nat) (t : DataObj σ δ V) :
    DataObj σ δ V :=
  if t.enabled (subContextOf cs J) then t.appended (subContextOf cs J) v else t

/-- The calls the body of `streamFunctor` makes on the sub-entry at index `J`. -/
def streamCalls (cs : List (ContextObj σ)) (v : V) (J : Nat) (t : DataObj σ δ V) :
    List (Call V) :=
  Call.dataIsEnabled J :: (if t.enabled (subContextOf cs J) then [Call.append J v] else [])

/-- The sub-entry at index `J` after the body of `writeFormattedFunctor`. -/
def DataObj.formattedIfEnabled (cs : List (ContextObj σ)) (format : String) (args : List V)
    (J : Nat) (t : DataObj σ δ V) : DataObj σ δ V :=
  if t.enabled (subContextOf cs J) then t.formatted (subContextOf cs J) format args else t

/-- The calls the body of `writeFormattedFunctor` makes on the sub-entry at
index `J`. -/
def formatCalls (cs : List (ContextObj σ)) (format : String) (args : List V) (J : Nat)
    (t : DataObj σ δ V) : List (Call V) :=
  Call.dataIsEnabled J
    :: (if t.enabled (subContextOf cs J) then [Call.writeFormatted J format args] else [])

/-- The elements after a walk whose functor turns element `t` at index `I`
into `f I t`. -/
def mapFrom {τ : Type} (f : Nat → τ → τ) : Nat → List τ → List τ
  | _, [] => []
  | I, t :: ts => f I t :: mapFrom f (I + 1) ts

end Classes

/-! ## Test doubles

Backends over the sub-context state `Nat`, the sub-entry state `List String`
and the values `String`, for the concrete instances below. -/

namespace Double

/-- A sub-context that counts its registrations and reports every severity
enabled. -/
def onContext : ContextType Nat :=
  { fresh := 0
    setParentContext := fun s _ => s
    registerContext := fun s => s + 1
    isEnabled := fun s _ => (true, s) }

/-- A sub-context that counts its registrations and reports every severity
disabled. -/
def offContext : ContextType Nat :=
  { fresh := 0
    setParentContext := fun s _ => s
    registerContext := fun s => s + 1
    isEnabled := fun s _ => (false, s) }

/-- A sub-context that counts the queries it receives and reports enabled at
the first query only. -/
def onceContext : ContextType Nat :=
  { fresh := 0
    setParentContext := fun s _ => s
    registerContext := fun s => s
    isEnabled := fun s _ => (decide (s = 0), s + 1) }

/-- A sub-entry that reports enabled and records what it is given. -/
def onData : DataType Nat (List String) String :=
  { fresh := []
    init := fun d _ _ => d
    isEnabled := fun _ _ => true
    append := fun d _ v => d ++ [v]
    writeFormatted := fun d _ format args => d ++ format :: args }

/-- A sub-entry that reports disabled and records what it is given. -/
def offData : DataType Nat (List String) String :=
  { fresh := []
    init := fun d _ _ => d
    isEnabled := fun _ _ => false
    append := fun d _ v => d ++ [v]
    writeFormatted := fun d _ format args => d ++ format :: args }

/-- The common identity of the contexts below. -/
def base : LogContextCommon :=
  { m_id := "TEST", m_description := "Test context" }

/-- A registered context with one backend that is disabled: the sub-context
reports every severity disabled and so does its sub-entry. -/
def offContextObj : LogContextT Nat (List String) String :=
  { toLogContextCommon := base
    LogDataTypes := [offData]
    m_contexts := [⟨offContext, 1⟩]
    m_bRegistered := true }

/-- A freshly constructed (not yet registered) context with an enabled first
and a disabled second backend. -/
def onOffContextObj : LogContextT Nat (List String) String :=
  { toLogContextCommon := base
    LogDataTypes := [onData, offData]
    m_contexts := [⟨onContext, 0⟩, ⟨offContext, 0⟩]
    m_bRegistered := false }

/-- A registered context whose one backend reports enabled at the first
query only, with a sub-entry that reports enabled. -/
def onceContextObj : LogContextT Nat (List String) String :=
  { toLogContextCommon := base
    LogDataTypes := [onData]
    m_contexts := [⟨onceContext, 0⟩]
    m_bRegistered := true }

/-- An entry builder of `onceContextObj` for a Warning record. -/
def onceData : LogData Nat (List String) String :=
  { toLogInfo := ⟨LogLevel.Warning, "main.cpp", 18, "main"⟩
    m_contexts := [⟨onData, []⟩] }

/-- A registered context with one backend that always reports enabled. -/
def onContextObj : LogContextT Nat (List String) String :=
  { toLogContextCommon := base
    LogDataTypes := [onData]
    m_contexts := [⟨onContext, 1⟩]
    m_bRegistered := true }

/-- A streamed value: a string or an integer. -/
inductive Value where
  | str (s : String)
  | int (n : Int)

/-- What streaming a value writes. -/
def Value.render : Value → String
  | .str s => s
  | .int n => ostreamInt n

/-- Modelled from the spec: the sub-entry of the test backend that records
(severity, text) pairs.  It reports enabled; `init` notes the severity of the
record and each append adds the rendering of the value to the text, so the
sub-entry is the recorded pair. -/
def recData {V : Type} (render : V → String) : DataType Nat (Option LogLevel × String) V :=
  { fresh := (none, "")
    init := fun d _ log => (some log.getLogLevel, d.2)
    isEnabled := fun _ _ => true
    append := fun d _ v => (d.1, d.2 ++ render v)
    writeFormatted := fun d _ format _ => (d.1, d.2 ++ format) }

/-- The context type with the one test backend that records (severity, text)
pairs and is enabled. -/
def recTypes {V : Type} (render : V → String) : TypeSets Nat (Option LogLevel × String) V :=
  { ContextTypes := [onContext], LogDataTypes := [recData render] }

/-- The rest of a log statement that streams the values `vs`:
`<< v1 << ... << vn`. -/
def streamRest {σ δ V : Type} (vs : List V) (d : LogData σ δ V) (c : LogContextT σ δ V)
    (tr : List (Call V)) : LogData σ δ V × LogContextT σ δ V × List (Call V) :=
  ((d.streamAll c vs tr).1, c, (d.streamAll c vs tr).2)

/-- The (severity, text) pairs recorded by the entry builders of a
statement. -/
def recorded {σ δ V : Type} (s : StmtState σ δ V) : List δ :=
  s.built.flatMap fun b => b.m_contexts.map DataObj.st

/-- A sub-entry that rechecks its sub-context: it reports enabled when its
sub-context has been registered (the registration count is not 0). -/
def liveData : DataType Nat (List String) String :=
  { fresh := []
    init := fun d _ _ => d
    isEnabled := fun _ sub =>
      match sub with
      | some s => decide (0 < s)
      | none => false
    append := fun d _ v => d ++ [v]
    writeFormatted := fun d _ format args => d ++ format :: args }

/-- A freshly constructed (not yet registered) context with the always
enabled backend whose sub-entry rechecks the sub-context. -/
def liveContextObj : LogContextT Nat (List String) String :=
  { toLogContextCommon := base
    LogDataTypes := [liveData]
    m_contexts := [⟨onContext, 0⟩]
    m_bRegistered := false }

/-- The entry builder `liveContextObj.createLog(Warning, ...)` returns. -/
def liveBuilder : LogData Nat (List String) String :=
  { toLogInfo := ⟨LogLevel.Warning, "main.cpp", 18, "main"⟩
    m_contexts := [⟨liveData, []⟩] }

/-- An entry builder of `onOffContextObj` for a Warning record whose two
sub-entries report enabled. -/
def onOnData : LogData Nat (List String) String :=
  { toLogInfo := ⟨LogLevel.Warning, "main.cpp", 18, "main"⟩
    m_contexts := [⟨onData, []⟩, ⟨onData, []⟩] }

/-- The conversion base of a stream. -/
inductive Base where
  | dec
  | oct
  | hex
  deriving DecidableEq, Repr

/-- What `<< int` writes in each base: in decimal as `ostreamInt` gives it,
in octal and hexadecimal the digits of the 32-bit pattern of the value.  The
base is left as it is. -/
def writeIntIn : Base → Int → String × Base
  | .dec, n => (ostreamInt n, .dec)
  | .oct, n => (String.mk (Nat.toDigits 8 (n % 4294967296).toNat), .oct)
  | .hex, n => (String.mk (Nat.toDigits 16 (n % 4294967296).toNat), .hex)

/-- A stream whose format state is its conversion base, decimal by
default. -/
def baseModel : StreamModel Base :=
  { initial := .dec
    writeInt := writeIntIn
    writeInt_initial := fun _ => rfl }

/-- The manipulator `std::hex`: writes nothing and sets the base. -/
def hex (_ : Unit) (_ : Base) : String × Base := ("", .hex)

/-- An entry builder for a Warning record with an enabled first and a
disabled second sub-entry. -/
def onOffData : LogData Nat (List String) String :=
  { toLogInfo := ⟨LogLevel.Warning, "main.cpp", 18, "main"⟩
    m_contexts := [⟨onData, []⟩, ⟨offData, []⟩] }

end Double

/-! # Theorems -/

section Walks

variable {σ δ V : Type}

theorem for_each_in_tuple__split {τ κ : Type} (func : Nat → τ → κ → τ × κ) (suf : List τ) :
    ∀ (pre : List τ) (env : κ),
      for_each_in_tuple_ pre.length (pre ++ suf) func env
        = (pre ++ (forEachFrom func pre.length suf env).1,
            (forEachFrom func pre.length suf env).2) := by
  induction suf with
  | nil =>
    intro pre env
    rw [for_each_in_tuple_]
    simp [forEachFrom]
  | cons t ts ih =>
    intro pre env
    rw [for_each_in_tuple_]
    have hlt : pre.length < (pre ++ t :: ts).length := by simp
    rw [dif_pos hlt]
    have hget : (pre ++ t :: ts).get ⟨pre.length, hlt⟩ = t := by
      simp [List.getElem_append_right]
    have hset : ∀ x : τ, (pre ++ t :: ts).set pre.length x = (pre ++ [x]) ++ ts := by
      intro x
      simp
    simp only [hget, hset]
    have := ih (pre ++ [(func pre.length t env).1]) (func pre.length t env).2
    simp only [List.length_append, List.length_singleton] at this
    rw [this]
    simp [forEachFrom]

theorem for_each_in_tuple__eq {τ κ : Type} (func : Nat → τ → κ → τ × κ) (tpl : List τ) (env : κ) :
    for_each_in_tuple_ 0 tpl func env = forEachFrom func 0 tpl env := by
  have := for_each_in_tuple__split func tpl [] env
  simpa using this

theorem for_each_init_split (context : LogContextT σ δ V) (log : LogInfo)
    (ds : List (DataObj σ δ V)) :
    ∀ (dpre : List (DataObj σ δ V)) (tr : List (Call V)),
      LogData.for_each_init dpre.length (dpre ++ ds) context log tr
        = (dpre ++ (initFrom log dpre.length ds (context.m_contexts.drop dpre.length) tr).1,
            (initFrom log dpre.length ds (context.m_contexts.drop dpre.length) tr).2) := by
  induction ds with
  | nil =>
    intro dpre tr
    rw [LogData.for_each_init]
    cases hcs : context.m_contexts.drop dpre.length with
    | nil => simp [initFrom]
    | cons c cs => simp [initFrom]
  | cons d ds ih =>
    intro dpre tr
    rw [LogData.for_each_init]
    by_cases hlt : dpre.length < context.m_contexts.length
    · rw [dif_pos hlt]
      have hd : (dpre ++ d :: ds)[dpre.length]? = some d := by
        rw [List.getElem?_append_right (Nat.le_refl _)]
        simp
      have hset : ∀ x : DataObj σ δ V,
          (dpre ++ d :: ds).set dpre.length x = (dpre ++ [x]) ++ ds := by
        intro x
        simp
      have hdrop : context.m_contexts.drop dpre.length
          = context.m_contexts.get ⟨dpre.length, hlt⟩
              :: context.m_contexts.drop (dpre.length + 1) := by
        simp
      simp only [hd, hset]
      have := ih (dpre ++ [DataObj.inited log d (context.m_contexts.get ⟨dpre.length, hlt⟩)])
        (tr ++ [Call.init dpre.length log])
      simp only [List.length_append, List.length_singleton, DataObj.inited] at this
      rw [this, hdrop]
      simp [initFrom]
    · rw [dif_neg hlt]
      have hdrop : context.m_contexts.drop dpre.length = [] := by
        simp
        omega
      rw [hdrop]
      simp [initFrom]

theorem for_each_init_eq (context : LogContextT σ δ V) (log : LogInfo)
    (tpl : List (DataObj σ δ V)) (tr : List (Call V)) :
    LogData.for_each_init 0 tpl context log tr = initFrom log 0 tpl context.m_contexts tr := by
  have := for_each_init_split context log tpl [] tr
  simpa using this

theorem forEachFrom_simple {τ : Type} (func : Nat → τ → List (Call V) → τ × List (Call V))
    (f : Nat → τ → τ) (ev : Nat → τ → List (Call V))
    (hf : ∀ I t tr, func I t tr = (f I t, tr ++ ev I t)) (ts : List τ) :
    ∀ (I : Nat) (tr : List (Call V)),
      forEachFrom func I ts tr = (mapFrom f I ts, tr ++ callsFrom ev I ts) := by
  induction ts with
  | nil =>
    intro I tr
    simp [forEachFrom, callsFrom, mapFrom]
  | cons t ts ih =>
    intro I tr
    simp [forEachFrom, callsFrom, mapFrom, hf, ih]

theorem mapFrom_const {τ : Type} (g : τ → τ) (ts : List τ) :
    ∀ I, mapFrom (fun _ => g) I ts = ts.map g := by
  induction ts with
  | nil =>
    intro I
    simp [mapFrom]
  | cons t ts ih =>
    intro I
    simp [mapFrom, ih]

theorem mapFrom_length {τ : Type} (f : Nat → τ → τ) (ts : List τ) :
    ∀ I, (mapFrom f I ts).length = ts.length := by
  induction ts with
  | nil =>
    intro I
    simp [mapFrom]
  | cons t ts ih =>
    intro I
    simp [mapFrom, ih]

theorem mapFrom_getElem? {τ : Type} (f : Nat → τ → τ) (ts : List τ) :
    ∀ I i, (mapFrom f I ts)[i]? = (ts[i]?).map (f (I + i)) := by
  induction ts with
  | nil =>
    intro I i
    simp [mapFrom]
  | cons t ts ih =>
    intro I i
    cases i with
    | zero => simp [mapFrom]
    | succ i =>
      simp only [mapFrom, List.getElem?_cons_succ]
      rw [ih (I + 1) i]
      have : I + 1 + i = I + (i + 1) := by omega
      rw [this]

theorem mapFrom_congr {τ : Type} (f g : Nat → τ → τ) (ts : List τ) :
    ∀ I, (∀ j t, ts[j]? = some t → f (I + j) t = g (I + j) t) →
      mapFrom f I ts = mapFrom g I ts := by
  induction ts with
  | nil =>
    intro I _
    simp [mapFrom]
  | cons t ts ih =>
    intro I h
    have h0 := h 0 t (by simp)
    have hrest := ih (I + 1) (by
      intro j t2 hj
      have := h (j + 1) t2 (by simpa using hj)
      have harith : I + (j + 1) = I + 1 + j := by omega
      rw [harith] at this
      exact this)
    simp only [Nat.add_zero] at h0
    simp [mapFrom, h0, hrest]

theorem mapFrom_id {τ : Type} (ts : List τ) : ∀ I, mapFrom (fun _ t => t) I ts = ts := by
  intro I
  rw [mapFrom_const]
  simp

theorem forEachFrom_isEnabled (level : LogLevel) (ts : List (ContextObj σ)) :
    ∀ (I : Nat) (b : Bool) (tr : List (Call V)),
      forEachFrom (isEnabledFunctor level) I ts (b, tr)
        = (ts.map (ContextObj.queried level),
            (b || ts.any (ContextObj.answer level),
              tr ++ callsFrom (fun J _ => [Call.isEnabled J level]) I ts)) := by
  induction ts with
  | nil =>
    intro I b tr
    simp [forEachFrom, callsFrom]
  | cons t ts ih =>
    intro I b tr
    simp [forEachFrom, callsFrom, isEnabledFunctor, ih, ContextObj.queried, ContextObj.answer,
      Bool.or_assoc]

theorem initFrom_eq (log : LogInfo) (ds : List (DataObj σ δ V)) :
    ∀ (cs : List (ContextObj σ)) (I : Nat) (tr : List (Call V)),
      initFrom log I ds cs tr
        = (List.zipWith (DataObj.inited log) ds cs ++ ds.drop cs.length,
            tr ++ callsFrom (fun J _ => [Call.init J log]) I (ds.take cs.length)) := by
  induction ds with
  | nil =>
    intro cs I tr
    cases cs <;> simp [initFrom, callsFrom]
  | cons d ds ih =>
    intro cs I tr
    cases cs with
    | nil => simp [initFrom, callsFrom]
    | cons c cs => simp [initFrom, callsFrom, ih, DataObj.inited]

theorem filterMap_callsFrom_of_lt {τ α : Type} (sel : Call V → Option α)
    (ev : Nat → τ → List (Call V)) (i : Nat)
    (hsel : ∀ J t, J ≠ i → (ev J t).filterMap sel = []) (ts : List τ) :
    ∀ I, i < I → (callsFrom ev I ts).filterMap sel = [] := by
  induction ts with
  | nil =>
    intro I _
    simp [callsFrom]
  | cons t ts ih =>
    intro I hI
    simp only [callsFrom, List.filterMap_append]
    rw [hsel I t (by omega), ih (I + 1) (by omega)]
    simp

theorem filterMap_callsFrom_at {τ α : Type} (sel : Call V → Option α)
    (ev : Nat → τ → List (Call V)) (i : Nat)
    (hsel : ∀ J t, J ≠ i → (ev J t).filterMap sel = []) (ts : List τ) :
    ∀ I t, I ≤ i → ts[i - I]? = some t →
      (callsFrom ev I ts).filterMap sel = (ev i t).filterMap sel := by
  induction ts with
  | nil =>
    intro I t _ h
    simp at h
  | cons t0 ts ih =>
    intro I t hI h
    simp only [callsFrom, List.filterMap_append]
    rcases Nat.eq_or_lt_of_le hI with heq | hlt
    · subst heq
      simp at h
      subst h
      rw [filterMap_callsFrom_of_lt sel ev I hsel ts (I + 1) (by omega)]
      simp
    · have h2 : i - I = (i - (I + 1)) + 1 := by omega
      rw [h2] at h
      simp only [List.getElem?_cons_succ] at h
      rw [hsel I t0 (by omega), ih (I + 1) t (by omega) h]
      simp

theorem callsFrom_congr {τ : Type} (ev ev2 : Nat → τ → List (Call V)) (ts : List τ) :
    ∀ I, (∀ j t, ts[j]? = some t → ev (I + j) t = ev2 (I + j) t) →
      callsFrom ev I ts = callsFrom ev2 I ts := by
  induction ts with
  | nil =>
    intro I _
    simp [callsFrom]
  | cons t ts ih =>
    intro I h
    have h0 := h 0 t (by simp)
    have hrest := ih (I + 1) (by
      intro j t2 hj
      have := h (j + 1) t2 (by simpa using hj)
      have harith : I + (j + 1) = I + 1 + j := by omega
      rw [harith] at this
      exact this)
    simp only [Nat.add_zero] at h0
    simp [callsFrom, h0, hrest]

theorem callsFrom_single {τ : Type} (f : Nat → Call V) (ts : List τ) :
    ∀ I, callsFrom (fun J _ => [f J]) I ts = (List.range' I ts.length).map f := by
  induction ts with
  | nil =>
    intro I
    simp [callsFrom]
  | cons t ts ih =>
    intro I
    simp [callsFrom, ih, List.range'_succ]

theorem callsFrom_single_zero {τ : Type} (f : Nat → Call V) (ts : List τ) :
    callsFrom (fun J _ => [f J]) 0 ts = (List.range ts.length).map f := by
  rw [callsFrom_single, List.range_eq_range']

theorem filterMap_range_map_at {α : Type} (sel : Call V → Option α) (f : Nat → Call V)
    (i : Nat) (a : α) (hsel : ∀ j, sel (f j) = if j = i then some a else none) :
    ∀ n, ((List.range n).map f).filterMap sel = if i < n then [a] else [] := by
  intro n
  induction n with
  | zero => simp
  | succ n ih =>
    rw [List.range_succ, List.map_append, List.filterMap_append, ih]
    by_cases h1 : i < n
    · have : n ≠ i := by omega
      simp [h1, hsel, this, Nat.lt_succ_of_lt h1]
    · by_cases h2 : n = i
      · subst h2
        simp [hsel]
      · have : ¬ i < n + 1 := by omega
        simp [h1, hsel, h2, this]

theorem filterMap_callsFrom_nil {τ α : Type} (sel : Call V → Option α)
    (ev : Nat → τ → List (Call V)) (hsel : ∀ J t, (ev J t).filterMap sel = []) (ts : List τ) :
    ∀ I, (callsFrom ev I ts).filterMap sel = [] := by
  induction ts with
  | nil =>
    intro I
    simp [callsFrom]
  | cons t ts ih =>
    intro I
    simp [callsFrom, List.filterMap_append, hsel, ih]

end Walks

section Methods

variable {σ δ V : Type}

theorem checkContext_eq (c : LogContextT σ δ V) (tr : List (Call V)) :
    c.checkContext tr
      = if c.m_bRegistered then (c, tr)
        else ({ c with m_contexts := c.m_contexts.map ContextObj.registered,
                       m_bRegistered := true },
              tr ++ Call.setDefaultAPPIDSIfNeeded
                :: callsFrom (fun J _ => [Call.registerContext J]) 0 c.m_contexts) := by
  unfold LogContextT.checkContext
  cases hreg : c.m_bRegistered with
  | true => simp
  | false =>
    have h := forEachFrom_simple (V := V) registerContextFunctor
      (fun _ => ContextObj.registered) (fun J _ => [Call.registerContext J])
      (by intro I t tr; simp [registerContextFunctor, ContextObj.registered]) c.m_contexts 0
      (tr ++ [Call.setDefaultAPPIDSIfNeeded])
    simp [for_each_in_tuple__eq, h, mapFrom_const]

theorem isEnabled_eq (c : LogContextT σ δ V) (level : LogLevel) (tr : List (Call V)) :
    c.isEnabled level tr
      = ((c.checkContext tr).1.m_contexts.any (ContextObj.answer level),
          { (c.checkContext tr).1 with
              m_contexts := (c.checkContext tr).1.m_contexts.map (ContextObj.queried level) },
          (c.checkContext tr).2
            ++ callsFrom (fun J _ => [Call.isEnabled J level]) 0 (c.checkContext tr).1.m_contexts) := by
  unfold LogContextT.isEnabled
  simp [for_each_in_tuple__eq, forEachFrom_isEnabled]

theorem stream_eq (d : LogData σ δ V) (c : LogContextT σ δ V) (v : V) (tr : List (Call V)) :
    d.stream c v tr
      = ({ d with m_contexts := mapFrom (DataObj.streamed c.m_contexts v) 0 d.m_contexts },
          tr ++ callsFrom (streamCalls c.m_contexts v) 0 d.m_contexts) := by
  unfold LogData.stream
  have h := forEachFrom_simple (V := V) (streamFunctor c.m_contexts v)
    (DataObj.streamed c.m_contexts v) (streamCalls c.m_contexts v)
    (by
      intro I t tr
      unfold streamFunctor DataObj.streamed streamCalls DataObj.enabled DataObj.appended
      split <;> simp_all) d.m_contexts 0 tr
  simp [for_each_in_tuple__eq, h]

theorem writeFormatted_eq (d : LogData σ δ V) (c : LogContextT σ δ V) (format : String)
    (args : List V) (tr : List (Call V)) :
    d.writeFormatted c format args tr
      = ({ d with m_contexts :=
            mapFrom (DataObj.formattedIfEnabled c.m_contexts format args) 0 d.m_contexts },
          tr ++ callsFrom (formatCalls c.m_contexts format args) 0 d.m_contexts) := by
  unfold LogData.writeFormatted
  have h := forEachFrom_simple (V := V) (writeFormattedFunctor c.m_contexts format args)
    (DataObj.formattedIfEnabled c.m_contexts format args) (formatCalls c.m_contexts format args)
    (by
      intro I t tr
      unfold writeFormattedFunctor DataObj.formattedIfEnabled formatCalls DataObj.enabled
        DataObj.formatted
      split <;> simp_all) d.m_contexts 0 tr
  simp [for_each_in_tuple__eq, h]

theorem LogData_new_eq (c : LogContextT σ δ V) (level : LogLevel) (fileName : String)
    (lineNumber : Int) (prettyFunction : String) (tr : List (Call V)) :
    LogData.new c level fileName lineNumber prettyFunction tr
      = ({ toLogInfo := ⟨level, fileName, lineNumber, prettyFunction⟩,
           m_contexts :=
             (initFrom ⟨level, fileName, lineNumber, prettyFunction⟩ 0
               (c.LogDataTypes.map fun D => ({ vt := D, st := D.fresh } : DataObj σ δ V))
               c.m_contexts tr).1 },
          (initFrom ⟨level, fileName, lineNumber, prettyFunction⟩ 0
               (c.LogDataTypes.map fun D => ({ vt := D, st := D.fresh } : DataObj σ δ V))
               c.m_contexts tr).2) := by
  unfold LogData.new
  simp [for_each_init_eq]

theorem stream_state_at (d : LogData σ δ V) (c : LogContextT σ δ V) (v : V)
    (tr : List (Call V)) (i : Nat) :
    (d.stream c v tr).1.m_contexts[i]?
      = (d.m_contexts[i]?).map (DataObj.streamed c.m_contexts v i) := by
  rw [stream_eq]
  simp [mapFrom_getElem?]

theorem stream_appendsTo_at (d : LogData σ δ V) (c : LogContextT σ δ V) (v : V)
    (tr : List (Call V)) (i : Nat) (t : DataObj σ δ V) (hi : d.m_contexts[i]? = some t) :
    appendsTo i (d.stream c v tr).2
      = appendsTo i tr ++ (if t.enabled (subContextOf c.m_contexts i) then [v] else []) := by
  rw [stream_eq]
  unfold appendsTo
  rw [List.filterMap_append]
  congr 1
  rw [filterMap_callsFrom_at _ (streamCalls c.m_contexts v) i _ d.m_contexts 0 t (Nat.zero_le _)
    (by simpa using hi)]
  · unfold streamCalls
    split <;> simp
  · intro J t0 hJ
    unfold streamCalls
    split <;> simp [hJ]

theorem writeFormatted_state_at (d : LogData σ δ V) (c : LogContextT σ δ V) (format : String)
    (args : List V) (tr : List (Call V)) (i : Nat) :
    (d.writeFormatted c format args tr).1.m_contexts[i]?
      = (d.m_contexts[i]?).map (DataObj.formattedIfEnabled c.m_contexts format args i) := by
  rw [writeFormatted_eq]
  simp [mapFrom_getElem?]

theorem writeFormatted_formattedTo_at (d : LogData σ δ V) (c : LogContextT σ δ V)
    (format : String) (args : List V) (tr : List (Call V)) (i : Nat) (t : DataObj σ δ V)
    (hi : d.m_contexts[i]? = some t) :
    formattedTo i (d.writeFormatted c format args tr).2
      = formattedTo i tr
        ++ (if t.enabled (subContextOf c.m_contexts i) then [(format, args)] else []) := by
  rw [writeFormatted_eq]
  unfold formattedTo
  rw [List.filterMap_append]
  congr 1
  rw [filterMap_callsFrom_at _ (formatCalls c.m_contexts format args) i _ d.m_contexts 0 t
    (Nat.zero_le _) (by simpa using hi)]
  · unfold formatCalls
    split <;> simp
  · intro J t0 hJ
    unfold formatCalls
    split <;> simp [hJ]

theorem stream_of_disabled (d : LogData σ δ V) (c : LogContextT σ δ V) (v : V)
    (tr : List (Call V))
    (hoff : ∀ (j : Nat) (t : DataObj σ δ V), d.m_contexts[j]? = some t →
      t.enabled (subContextOf c.m_contexts j) = false) :
    d.stream c v tr = (d, tr ++ (List.range d.m_contexts.length).map Call.dataIsEnabled) := by
  rw [stream_eq]
  have hmap : mapFrom (DataObj.streamed c.m_contexts v) 0 d.m_contexts = d.m_contexts := by
    rw [mapFrom_congr (DataObj.streamed c.m_contexts v) (fun _ t => t) d.m_contexts 0
      (by
        intro j t hj
        simp [DataObj.streamed, hoff j t hj]), mapFrom_id]
  have hcalls : callsFrom (streamCalls c.m_contexts v) 0 d.m_contexts
      = callsFrom (fun J _ => [Call.dataIsEnabled J]) 0 d.m_contexts := by
    apply callsFrom_congr
    intro j t hj
    simp [streamCalls, hoff j t hj]
  rw [hmap, hcalls, callsFrom_single_zero]

theorem streamAll_of_disabled (vs : List V) :
    ∀ (d : LogData σ δ V) (c : LogContextT σ δ V) (tr : List (Call V)),
      (∀ (j : Nat) (t : DataObj σ δ V), d.m_contexts[j]? = some t →
        t.enabled (subContextOf c.m_contexts j) = false) →
      d.streamAll c vs tr
        = (d, tr ++ vs.flatMap fun _ =>
            (List.range d.m_contexts.length).map Call.dataIsEnabled) := by
  induction vs with
  | nil =>
    intro d c tr _
    simp [LogData.streamAll]
  | cons v vs ih =>
    intro d c tr hoff
    simp [LogData.streamAll, stream_of_disabled d c v tr hoff, ih d c _ hoff]

theorem createLog_eq (c : LogContextT σ δ V) (level : LogLevel) (fileName : String)
    (lineNumber : Int) (prettyFunction : String) (tr : List (Call V))
    (hlen : c.LogDataTypes.length = c.m_contexts.length) :
    c.createLog level fileName lineNumber prettyFunction tr
      = ({ toLogInfo := ⟨level, fileName, lineNumber, prettyFunction⟩,
           m_contexts := List.zipWith
             (DataObj.inited ⟨level, fileName, lineNumber, prettyFunction⟩)
             (c.LogDataTypes.map fun D => ({ vt := D, st := D.fresh } : DataObj σ δ V))
             c.m_contexts },
          tr ++ (List.range c.m_contexts.length).map
            fun i => Call.init i ⟨level, fileName, lineNumber, prettyFunction⟩) := by
  unfold LogContextT.createLog
  rw [LogData_new_eq, initFrom_eq]
  have h1 : (c.LogDataTypes.map fun D => ({ vt := D, st := D.fresh } : DataObj σ δ V)).drop
      c.m_contexts.length = [] := by
    simp [hlen]
  have h2 : (c.LogDataTypes.map fun D => ({ vt := D, st := D.fresh } : DataObj σ δ V)).take
      c.m_contexts.length
        = (c.LogDataTypes.map fun D => ({ vt := D, st := D.fresh } : DataObj σ δ V)) := by
    apply List.take_of_length_le
    simp [hlen]
  rw [h1, h2, callsFrom_single_zero]
  simp [hlen]

theorem registrations_append (i : Nat) (a b : List (Call V)) :
    registrations i (a ++ b) = registrations i a + registrations i b := by
  simp [registrations, List.filterMap_append]

theorem registrations_callsFrom_zero {τ : Type} (i : Nat) (ev : Nat → τ → List (Call V))
    (h : ∀ J t, registrations i (ev J t) = 0) (ts : List τ) :
    ∀ I, registrations i (callsFrom ev I ts) = 0 := by
  induction ts with
  | nil =>
    intro I
    simp [callsFrom, registrations]
  | cons t ts ih =>
    intro I
    simp [callsFrom, registrations_append, h, ih]

theorem registrations_registerCalls {τ : Type} (i : Nat) (ts : List τ) (hi : i < ts.length) :
    registrations i (callsFrom (fun J _ => [Call.registerContext (V := V) J]) 0 ts) = 1 := by
  have hget : ts[i - 0]? = some (ts.get ⟨i, hi⟩) := by simp
  unfold registrations
  rw [filterMap_callsFrom_at _ (fun J (_ : τ) => [Call.registerContext (V := V) J]) i _ ts 0
    (ts.get ⟨i, hi⟩) (Nat.zero_le _) hget]
  · simp
  · intro J t hJ
    simp [hJ]

theorem isEnabled_sets_registered (c : LogContextT σ δ V) (level : LogLevel)
    (tr : List (Call V)) : (c.isEnabled level tr).2.1.m_bRegistered = true := by
  rw [isEnabled_eq, checkContext_eq]
  cases h : c.m_bRegistered <;> simp [h]

theorem isEnabled_trace_of_registered (c : LogContextT σ δ V) (level : LogLevel)
    (tr : List (Call V)) (h : c.m_bRegistered = true) :
    (c.isEnabled level tr).2.2
      = tr ++ (List.range c.m_contexts.length).map fun i => Call.isEnabled i level := by
  rw [isEnabled_eq, checkContext_eq]
  simp [h, callsFrom_single_zero]

theorem isEnabled_trace_of_unregistered (c : LogContextT σ δ V) (level : LogLevel)
    (tr : List (Call V)) (h : c.m_bRegistered = false) :
    (c.isEnabled level tr).2.2
      = tr ++ Call.setDefaultAPPIDSIfNeeded
          :: (List.range c.m_contexts.length).map Call.registerContext
          ++ (List.range c.m_contexts.length).map fun i => Call.isEnabled i level := by
  rw [isEnabled_eq, checkContext_eq]
  simp [h, callsFrom_single_zero]

theorem registrations_isEnabled_of_registered (i : Nat) (c : LogContextT σ δ V)
    (level : LogLevel) (tr : List (Call V)) (h : c.m_bRegistered = true) :
    registrations i (c.isEnabled level tr).2.2 = registrations i tr := by
  rw [isEnabled_eq, checkContext_eq]
  simp only [h, if_true, registrations_append]
  rw [registrations_callsFrom_zero]
  · simp
  · intro J t
    simp [registrations]

theorem registrations_isEnabled_of_unregistered (i : Nat) (c : LogContextT σ δ V)
    (level : LogLevel) (tr : List (Call V)) (h : c.m_bRegistered = false)
    (hi : i < c.m_contexts.length) :
    registrations i (c.isEnabled level tr).2.2 = registrations i tr + 1 := by
  rw [isEnabled_eq, checkContext_eq]
  simp only [h, Bool.false_eq_true, if_false, registrations_append]
  rw [registrations_callsFrom_zero i (fun J _ => [Call.isEnabled J level])]
  · have h1 : registrations i (Call.setDefaultAPPIDSIfNeeded
        :: callsFrom (fun J _ => [Call.registerContext (V := V) J]) 0 c.m_contexts)
          = registrations i
              (callsFrom (fun J _ => [Call.registerContext (V := V) J]) 0 c.m_contexts) := by
      simp [registrations]
    rw [h1, registrations_registerCalls i c.m_contexts hi]
  · intro J t
    simp [registrations]

theorem registrations_createLog (i : Nat) (c : LogContextT σ δ V) (level : LogLevel)
    (fileName : String) (lineNumber : Int) (prettyFunction : String) (tr : List (Call V)) :
    registrations i (c.createLog level fileName lineNumber prettyFunction tr).2
      = registrations i tr := by
  unfold LogContextT.createLog
  rw [LogData_new_eq, initFrom_eq]
  simp only [registrations_append]
  rw [registrations_callsFrom_zero]
  · simp
  · intro J t
    simp [registrations]

theorem registrations_stream (i : Nat) (d : LogData σ δ V) (c : LogContextT σ δ V) (v : V)
    (tr : List (Call V)) :
    registrations i (d.stream c v tr).2 = registrations i tr := by
  rw [stream_eq]
  simp only [registrations_append]
  rw [registrations_callsFrom_zero]
  · simp
  · intro J t
    unfold streamCalls
    split <;> simp [registrations]

theorem registrations_writeFormatted (i : Nat) (d : LogData σ δ V) (c : LogContextT σ δ V)
    (format : String) (args : List V) (tr : List (Call V)) :
    registrations i (d.writeFormatted c format args tr).2 = registrations i tr := by
  rw [writeFormatted_eq]
  simp only [registrations_append]
  rw [registrations_callsFrom_zero]
  · simp
  · intro J t
    unfold formatCalls
    split <;> simp [registrations]

theorem write_of_registered (i : Nat) (args : List V) :
    ∀ (d : LogData σ δ V) (c : LogContextT σ δ V) (tr : List (Call V)),
      c.m_bRegistered = true →
        (d.write c args tr).2.1.m_bRegistered = true
          ∧ registrations i (d.write c args tr).2.2 = registrations i tr := by
  induction args with
  | nil =>
    intro d c tr h
    simp [LogData.write, h]
  | cons a args ih =>
    intro d c tr h
    have hreg := isEnabled_sets_registered c d.toLogInfo.getLogLevel tr
    have hcnt := registrations_isEnabled_of_registered i c d.toLogInfo.getLogLevel tr h
    unfold LogData.write
    simp only
    split
    · have := ih (d.stream (c.isEnabled d.toLogInfo.getLogLevel tr).2.1 a
          (c.isEnabled d.toLogInfo.getLogLevel tr).2.2).1
        (c.isEnabled d.toLogInfo.getLogLevel tr).2.1
        (d.stream (c.isEnabled d.toLogInfo.getLogLevel tr).2.1 a
          (c.isEnabled d.toLogInfo.getLogLevel tr).2.2).2 hreg
      rw [this.2, registrations_stream, hcnt]
      exact ⟨this.1, rfl⟩
    · exact ⟨hreg, hcnt⟩

theorem step_of_registered (i : Nat) (s : RunState σ δ V) (op : Op V)
    (h : s.context.m_bRegistered = true) :
    (step s op).context.m_bRegistered = true
      ∧ registrations i (step s op).trace = registrations i s.trace := by
  cases op with
  | isEnabled level =>
    exact ⟨isEnabled_sets_registered _ _ _, registrations_isEnabled_of_registered i _ _ _ h⟩
  | createLog level fileName lineNumber prettyFunction =>
    exact ⟨h, registrations_createLog i _ _ _ _ _ _⟩
  | stream v =>
    cases hb : s.builder with
    | none => simp [step, hb, h]
    | some d => simpa [step, hb, h] using registrations_stream i d s.context v s.trace
  | write args =>
    cases hb : s.builder with
    | none => simp [step, hb, h]
    | some d => simpa [step, hb] using write_of_registered i args d s.context s.trace h
  | writeFormatted format args =>
    cases hb : s.builder with
    | none => simp [step, hb, h]
    | some d =>
      simpa [step, hb, h] using registrations_writeFormatted i d s.context format args s.trace

theorem run_of_registered (i : Nat) (ops : List (Op V)) :
    ∀ (s : RunState σ δ V), s.context.m_bRegistered = true →
      (run s ops).context.m_bRegistered = true
        ∧ registrations i (run s ops).trace = registrations i s.trace := by
  induction ops with
  | nil =>
    intro s h
    simp [run, h]
  | cons op ops ih =>
    intro s h
    have h1 := step_of_registered i s op h
    have h2 := ih (step s op) h1.1
    simp only [run, List.foldl_cons] at h2 ⊢
    exact ⟨h2.1, h2.2.trans h1.2⟩

theorem run_append (s : RunState σ δ V) (a b : List (Op V)) :
    run s (a ++ b) = run (run s a) b := by
  simp [run, List.foldl_append]

theorem run_createLogs (i : Nat) (ops : List (Op V))
    (hops : ∀ op ∈ ops, ∃ l f n p, op = Op.createLog l f n p) :
    ∀ (s : RunState σ δ V),
      (run s ops).context = s.context
        ∧ registrations i (run s ops).trace = registrations i s.trace := by
  induction ops with
  | nil =>
    intro s
    simp [run]
  | cons op ops ih =>
    intro s
    obtain ⟨l, f, n, p, rfl⟩ := hops op (List.mem_cons_self _ _)
    have h2 := ih (fun o ho => hops o (List.mem_cons_of_mem _ ho))
      (step s (Op.createLog l f n p))
    simp only [run, List.foldl_cons] at h2 ⊢
    refine ⟨h2.1.trans rfl, h2.2.trans ?_⟩
    exact registrations_createLog i _ _ _ _ _ _

theorem stream_toLogInfo (d : LogData σ δ V) (c : LogContextT σ δ V) (v : V)
    (tr : List (Call V)) : (d.stream c v tr).1.toLogInfo = d.toLogInfo := by
  simp [stream_eq]

theorem stream_data_indep (d : LogData σ δ V) (c : LogContextT σ δ V) (v : V)
    (tr tr2 : List (Call V)) : (d.stream c v tr).1 = (d.stream c v tr2).1 := by
  simp [stream_eq]

theorem isEnabled_result (c : LogContextT σ δ V) (level : LogLevel) (tr : List (Call V)) :
    (c.isEnabled level tr).1
      = (c.m_contexts.any fun b =>
          if c.m_bRegistered then b.answer level else b.registered.answer level) := by
  rw [isEnabled_eq, checkContext_eq]
  cases c.m_bRegistered <;> simp [List.any_map, Function.comp_def]

theorem isEnabled_indep (c : LogContextT σ δ V) (level : LogLevel) (tr tr2 : List (Call V)) :
    (c.isEnabled level tr).1 = (c.isEnabled level tr2).1
      ∧ (c.isEnabled level tr).2.1 = (c.isEnabled level tr2).2.1 := by
  rw [isEnabled_eq, isEnabled_eq, checkContext_eq, checkContext_eq]
  cases c.m_bRegistered <;> simp

theorem log_with_context_unfold (c : LogContextT σ δ V) (severity : LogLevel)
    (fileName : String) (lineNumber : Int) (prettyFunction : String)
    (rest : LogData σ δ V → LogContextT σ δ V → List (Call V) →
      LogData σ δ V × LogContextT σ δ V × List (Call V))
    (tr : List (Call V)) :
    log_with_context c severity fileName lineNumber prettyFunction rest tr
        = (if (c.isEnabled severity tr).1 then
            { context :=
                (rest
                  ((c.isEnabled severity tr).2.1.createLog severity fileName lineNumber
                    prettyFunction (c.isEnabled severity tr).2.2).1
                  (c.isEnabled severity tr).2.1
                  ((c.isEnabled severity tr).2.1.createLog severity fileName lineNumber
                    prettyFunction (c.isEnabled severity tr).2.2).2).2.1
              built :=
                [(rest
                  ((c.isEnabled severity tr).2.1.createLog severity fileName lineNumber
                    prettyFunction (c.isEnabled severity tr).2.2).1
                  (c.isEnabled severity tr).2.1
                  ((c.isEnabled severity tr).2.1.createLog severity fileName lineNumber
                    prettyFunction (c.isEnabled severity tr).2.2).2).1]
              trace :=
                (rest
                  ((c.isEnabled severity tr).2.1.createLog severity fileName lineNumber
                    prettyFunction (c.isEnabled severity tr).2.2).1
                  (c.isEnabled severity tr).2.1
                  ((c.isEnabled severity tr).2.1.createLog severity fileName lineNumber
                    prettyFunction (c.isEnabled severity tr).2.2).2).2.2 }
          else
            { context := (c.isEnabled severity tr).2.1
              built := []
              trace := (c.isEnabled severity tr).2.2 }) := by
  unfold log_with_context
  rw [log_with_context_loop]
  cases he : (c.isEnabled severity tr).1 with
  | false => simp [he]
  | true =>
    simp only [he, if_true]
    rw [log_with_context_loop]
    simp

end Methods

section Claims

variable {σ δ V : Type}

/-- C1: for every composite context, in either registration state, and every
severity, `isEnabled(level)` returns the logical OR of the answers of the
attached sub-contexts to `isEnabled(level)`; each sub-context is asked in the
state the call finds it in, which is its state after `registerContext()` when
the call is the one that registers.  With no sub-context attached the result
is false. -/
theorem isEnabled_is_or_of_backends (c : LogContextT σ δ V) (level : LogLevel)
    (tr : List (Call V)) :
    (c.isEnabled level tr).1
        = (c.m_contexts.any fun b =>
            if c.m_bRegistered then b.answer level else b.registered.answer level)
      ∧ ∀ (base : LogContextCommon) (Ds : List (DataType σ δ V)) (registered : Bool),
          (({ toLogContextCommon := base, LogDataTypes := Ds, m_contexts := [],
              m_bRegistered := registered } : LogContextT σ δ V).isEnabled level tr).1 = false := by
  constructor
  · rw [isEnabled_eq, checkContext_eq]
    cases c.m_bRegistered <;> simp [List.any_map, Function.comp_def]
  · intro base Ds registered
    rw [isEnabled_eq, checkContext_eq]
    cases registered <;> simp

/-- C2: for every entry builder and every streamed value `v`, `operator<<`
appends `v` exactly once to each sub-entry whose `isEnabled()` is true, and
makes no append call on a sub-entry whose `isEnabled()` is false: the values
appended to sub-entry `i` grow by `[v]` in the first case and not at all in
the second, and the sub-entry is left appended-to, respectively untouched.
The sub-entry answers and appends with its sub-context in the state the
owning context `c` holds it in. -/
theorem stream_appends_to_enabled_only (d : LogData σ δ V) (c : LogContextT σ δ V) (v : V)
    (tr : List (Call V)) (i : Nat) (t : DataObj σ δ V) (hi : d.m_contexts[i]? = some t) :
    appendsTo i (d.stream c v tr).2
        = appendsTo i tr ++ (if t.enabled (subContextOf c.m_contexts i) then [v] else [])
      ∧ (d.stream c v tr).1.m_contexts[i]?
          = some (if t.enabled (subContextOf c.m_contexts i)
              then t.appended (subContextOf c.m_contexts i) v else t) := by
  refine ⟨stream_appendsTo_at d c v tr i t hi, ?_⟩
  rw [stream_state_at, hi]
  simp [DataObj.streamed]

/-- Witness of C2: an enabled sub-entry `A` at index 0 and a disabled
sub-entry `B` at index 1; the value reaches `A` and not `B`. -/
theorem stream_appends_to_enabled_only_witness :
    (appendsTo 0 (Double.onOffData.stream Double.onOffContextObj "x" []).2 = ["x"]
      ∧ ((Double.onOffData.stream Double.onOffContextObj "x" []).1.m_contexts[0]?).map
          DataObj.st = some ["x"])
    ∧ (appendsTo 1 (Double.onOffData.stream Double.onOffContextObj "x" []).2 = []
      ∧ ((Double.onOffData.stream Double.onOffContextObj "x" []).1.m_contexts[1]?).map
          DataObj.st = some []) := by
  have hA := stream_appends_to_enabled_only Double.onOffData Double.onOffContextObj "x" [] 0
    ⟨Double.onData, []⟩ rfl
  have hB := stream_appends_to_enabled_only Double.onOffData Double.onOffContextObj "x" [] 1
    ⟨Double.offData, []⟩ rfl
  refine ⟨⟨?_, ?_⟩, ⟨?_, ?_⟩⟩
  · rw [hA.1]
    rfl
  · rw [hA.2]
    rfl
  · rw [hB.1]
    rfl
  · rw [hB.2]
    rfl

/-- C3, as stated, fails: a context whose one backend is disabled for Warning
(the sub-context answers false, the sub-entry answers false), an entry builder
created for Warning and one value streamed.  The sub-entry receives an `init`
call and an `isEnabled()` call, so the calls into the backend are not zero. -/
theorem createLog_calls_into_disabled_backend :
    (Double.offContextObj.isEnabled LogLevel.Warning []).1 = false
      ∧ (∀ (j : Nat) (t : DataObj Nat (List String) String),
          (Double.offContextObj.createLog LogLevel.Warning "main.cpp" 18 "main"
            []).1.m_contexts[j]? = some t →
          t.enabled (subContextOf Double.offContextObj.m_contexts j) = false)
      ∧ backendCalls
          (run { context := Double.offContextObj, builder := none, trace := [] }
            [Op.createLog LogLevel.Warning "main.cpp" 18 "main", Op.stream "x"]).trace
          = [Call.init 0 ⟨LogLevel.Warning, "main.cpp", 18, "main"⟩, Call.dataIsEnabled 0]
      ∧ backendCalls
          (run { context := Double.offContextObj, builder := none, trace := [] }
            [Op.createLog LogLevel.Warning "main.cpp" 18 "main", Op.stream "x"]).trace ≠ [] := by
  have hrun : (run { context := Double.offContextObj, builder := none, trace := [] }
      [Op.createLog LogLevel.Warning "main.cpp" 18 "main", Op.stream "x"]).trace
        = [Call.init 0 ⟨LogLevel.Warning, "main.cpp", 18, "main"⟩, Call.dataIsEnabled 0] := by
    simp [run, step, createLog_eq, stream_eq, Double.offContextObj, callsFrom, streamCalls,
      DataObj.enabled, DataObj.inited, Double.offData, List.range, List.range.loop]
  refine ⟨?_, ?_, ?_, ?_⟩
  · rw [isEnabled_eq, checkContext_eq]
    simp [Double.offContextObj, ContextObj.answer, Double.offContext]
  · intro j t ht
    have hmem := List.getElem?_mem ht
    simp [createLog_eq, Double.offContextObj, DataObj.inited] at hmem
    subst hmem
    rfl
  · rw [hrun]
    rfl
  · rw [hrun]
    simp [backendCalls, Call.isBackendCall]

/-- C3, amended: for every context and severity whose entry builder has only
sub-entries that report `isEnabled()` false (on their sub-contexts as the
context holds them), `createLog` followed by streaming
the values `vs` makes exactly these calls: `init` once on each sub-entry, in
index order, at construction, and then for each streamed value `isEnabled()`
once on each sub-entry.  No append or `writeFormatted` call is made on a
sub-entry, no call is made on a sub-context, and streaming leaves the builder
as construction left it. -/
theorem disabled_builder_inits_and_queries_only (c : LogContextT σ δ V) (level : LogLevel)
    (fileName : String) (lineNumber : Int) (prettyFunction : String) (tr : List (Call V))
    (vs : List V) (hlen : c.LogDataTypes.length = c.m_contexts.length)
    (hoff : ∀ (j : Nat) (t : DataObj σ δ V),
      (c.createLog level fileName lineNumber prettyFunction tr).1.m_contexts[j]? = some t →
      t.enabled (subContextOf c.m_contexts j) = false) :
    ((c.createLog level fileName lineNumber prettyFunction tr).1.streamAll c vs
        (c.createLog level fileName lineNumber prettyFunction tr).2).1
      = (c.createLog level fileName lineNumber prettyFunction tr).1
    ∧ ((c.createLog level fileName lineNumber prettyFunction tr).1.streamAll c vs
        (c.createLog level fileName lineNumber prettyFunction tr).2).2
      = tr ++ ((List.range c.m_contexts.length).map
            fun i => Call.init i ⟨level, fileName, lineNumber, prettyFunction⟩)
          ++ vs.flatMap fun _ => (List.range c.m_contexts.length).map Call.dataIsEnabled := by
  rw [streamAll_of_disabled vs _ c _ hoff]
  refine ⟨rfl, ?_⟩
  rw [createLog_eq c level fileName lineNumber prettyFunction tr hlen]
  simp [hlen]

/-- Witness of the amended C3 on the one-backend disabled context, two values
streamed. -/
theorem disabled_builder_inits_and_queries_only_witness :
    ((Double.offContextObj.createLog LogLevel.Warning "main.cpp" 18 "main" []).1.streamAll
        Double.offContextObj ["x", "y"]
        (Double.offContextObj.createLog LogLevel.Warning "main.cpp" 18 "main" []).2).2
      = [Call.init 0 ⟨LogLevel.Warning, "main.cpp", 18, "main"⟩, Call.dataIsEnabled 0,
          Call.dataIsEnabled 0] := by
  have h := disabled_builder_inits_and_queries_only Double.offContextObj LogLevel.Warning
    "main.cpp" 18 "main" [] ["x", "y"] rfl
    (by
      intro j t ht
      have hmem := List.getElem?_mem ht
      simp [createLog_eq, Double.offContextObj, DataObj.inited] at hmem
      subst hmem
      rfl)
  rw [h.2]
  rfl

/-- C6: one execution of the statement `log_with_context(context, severity)
rest;` evaluates the context's `isEnabled(severity)` exactly once.  If it
returned true, exactly one entry builder is constructed (by one `createLog`
on the context as that evaluation left it) and `rest` runs exactly once, on
that builder; if it returned false, no entry builder is constructed, `rest`
does not run, and the statement leaves what the one evaluation left. -/
theorem log_with_context_checks_once (c : LogContextT σ δ V) (severity : LogLevel)
    (fileName : String) (lineNumber : Int) (prettyFunction : String)
    (rest : LogData σ δ V → LogContextT σ δ V → List (Call V) →
      LogData σ δ V × LogContextT σ δ V × List (Call V))
    (tr : List (Call V)) :
    log_with_context c severity fileName lineNumber prettyFunction rest tr
        = (if (c.isEnabled severity tr).1 then
            { context :=
                (rest
                  ((c.isEnabled severity tr).2.1.createLog severity fileName lineNumber
                    prettyFunction (c.isEnabled severity tr).2.2).1
                  (c.isEnabled severity tr).2.1
                  ((c.isEnabled severity tr).2.1.createLog severity fileName lineNumber
                    prettyFunction (c.isEnabled severity tr).2.2).2).2.1
              built :=
                [(rest
                  ((c.isEnabled severity tr).2.1.createLog severity fileName lineNumber
                    prettyFunction (c.isEnabled severity tr).2.2).1
                  (c.isEnabled severity tr).2.1
                  ((c.isEnabled severity tr).2.1.createLog severity fileName lineNumber
                    prettyFunction (c.isEnabled severity tr).2.2).2).1]
              trace :=
                (rest
                  ((c.isEnabled severity tr).2.1.createLog severity fileName lineNumber
                    prettyFunction (c.isEnabled severity tr).2.2).1
                  (c.isEnabled severity tr).2.1
                  ((c.isEnabled severity tr).2.1.createLog severity fileName lineNumber
                    prettyFunction (c.isEnabled severity tr).2.2).2).2.2 }
          else
            { context := (c.isEnabled severity tr).2.1
              built := []
              trace := (c.isEnabled severity tr).2.2 })
      ∧ (log_with_context c severity fileName lineNumber prettyFunction rest tr).built.length
          = if (c.isEnabled severity tr).1 then 1 else 0 := by
  have hmain := log_with_context_unfold c severity fileName lineNumber prettyFunction
    rest tr
  refine ⟨hmain, ?_⟩
  rw [hmain]
  split <;> rfl

/-- C7: for every context with as many sub-entry types as sub-contexts (`n`)
and every severity, file, line and function, `createLog` returns an entry
builder carrying exactly that metadata, and its construction makes exactly `n`
calls, `init` on sub-entry 0, ..., `init` on sub-entry `n - 1`, each with that
metadata: sub-entry `i` is the default-constructed sub-entry of type `i`
after one `init` with the context's sub-context `i`. -/
theorem createLog_inits_every_subentry (c : LogContextT σ δ V) (level : LogLevel)
    (fileName : String) (lineNumber : Int) (prettyFunction : String) (tr : List (Call V))
    (hlen : c.LogDataTypes.length = c.m_contexts.length) :
    (c.createLog level fileName lineNumber prettyFunction tr).1.toLogInfo
        = ⟨level, fileName, lineNumber, prettyFunction⟩
      ∧ (c.createLog level fileName lineNumber prettyFunction tr).2
        = tr ++ (List.range c.m_contexts.length).map
            (fun i => Call.init i ⟨level, fileName, lineNumber, prettyFunction⟩)
      ∧ (c.createLog level fileName lineNumber prettyFunction tr).1.m_contexts.length
        = c.m_contexts.length
      ∧ ∀ i, i < c.m_contexts.length →
          initsOf i (c.createLog level fileName lineNumber prettyFunction tr).2
            = initsOf i tr ++ [⟨level, fileName, lineNumber, prettyFunction⟩]
          ∧ ∀ D b, c.LogDataTypes[i]? = some D → c.m_contexts[i]? = some b →
              (c.createLog level fileName lineNumber prettyFunction tr).1.m_contexts[i]?
                = some { vt := D,
                         st := D.init D.fresh b.st
                           ⟨level, fileName, lineNumber, prettyFunction⟩ } := by
  rw [createLog_eq c level fileName lineNumber prettyFunction tr hlen]
  refine ⟨rfl, rfl, by simp [hlen], ?_⟩
  intro i hi
  constructor
  · unfold initsOf
    rw [List.filterMap_append]
    congr 1
    rw [filterMap_range_map_at _ _ i ⟨level, fileName, lineNumber, prettyFunction⟩]
    · simp [hi]
    · intro j
      by_cases hj : j = i <;> simp [hj]
  · intro D b hD hb
    simp [List.getElem?_zipWith, hD, hb, DataObj.inited]

/-- Witness of C7 on the two-backend context: two `init` calls, in order, with
the metadata of the record. -/
theorem createLog_inits_every_subentry_witness :
    (Double.onOffContextObj.createLog LogLevel.Warning "main.cpp" 18 "main" []).2
      = [] ++ (List.range 2).map
          fun i => Call.init i ⟨LogLevel.Warning, "main.cpp", 18, "main"⟩ :=
  (createLog_inits_every_subentry Double.onOffContextObj LogLevel.Warning "main.cpp" 18 "main"
    [] rfl).2.1

/-- C8: for every entry builder, format string and argument list,
`writeFormatted(format, args...)` calls `writeFormatted(format, args...)`
exactly once on each sub-entry whose `isEnabled()` is true and never on a
sub-entry whose `isEnabled()` is false, the gating of `operator<<`.  The
sub-entry answers and writes with its sub-context in the state the owning
context `c` holds it in. -/
theorem writeFormatted_reaches_enabled_only (d : LogData σ δ V) (c : LogContextT σ δ V)
    (format : String) (args : List V) (tr : List (Call V)) (i : Nat) (t : DataObj σ δ V)
    (hi : d.m_contexts[i]? = some t) :
    formattedTo i (d.writeFormatted c format args tr).2
        = formattedTo i tr
          ++ (if t.enabled (subContextOf c.m_contexts i) then [(format, args)] else [])
      ∧ (d.writeFormatted c format args tr).1.m_contexts[i]?
          = some (if t.enabled (subContextOf c.m_contexts i)
              then t.formatted (subContextOf c.m_contexts i) format args else t) := by
  refine ⟨writeFormatted_formattedTo_at d c format args tr i t hi, ?_⟩
  rw [writeFormatted_state_at, hi]
  simp [DataObj.formattedIfEnabled]

/-- Witness of C8: an enabled sub-entry at index 0 and a disabled one at index
1; the formatted write reaches the first and not the second. -/
theorem writeFormatted_reaches_enabled_only_witness :
    (formattedTo 0 (Double.onOffData.writeFormatted Double.onOffContextObj "%s" ["x"] []).2
        = [("%s", ["x"])]
      ∧ ((Double.onOffData.writeFormatted Double.onOffContextObj "%s" ["x"]
          []).1.m_contexts[0]?).map DataObj.st = some ["%s", "x"])
    ∧ (formattedTo 1 (Double.onOffData.writeFormatted Double.onOffContextObj "%s" ["x"] []).2
        = []
      ∧ ((Double.onOffData.writeFormatted Double.onOffContextObj "%s" ["x"]
          []).1.m_contexts[1]?).map DataObj.st = some []) := by
  have hA := writeFormatted_reaches_enabled_only Double.onOffData Double.onOffContextObj "%s"
    ["x"] [] 0 ⟨Double.onData, []⟩ rfl
  have hB := writeFormatted_reaches_enabled_only Double.onOffData Double.onOffContextObj "%s"
    ["x"] [] 1 ⟨Double.offData, []⟩ rfl
  refine ⟨⟨?_, ?_⟩, ⟨?_, ?_⟩⟩
  · rw [hA.1]
    rfl
  · rw [hA.2]
    rfl
  · rw [hB.1]
    rfl
  · rw [hB.2]
    rfl

/-- C9: an object of the zero-backend type `NoLoggingLogContext` is
constructed without any call and has empty tuples.  In either registration
state its `isEnabled` returns false for every severity and leaves an object of
the same kind; a guarded log statement on it constructs no entry builder; and
an entry builder obtained directly from `createLog` has no sub-entry:
constructing it, `operator<<` and `writeFormatted` make no call at all and
leave it unchanged, and `write` leaves it unchanged and makes no backend
call. -/
theorem noLogging_is_noop (id description : String) (registered : Bool) (level : LogLevel)
    (fileName : String) (lineNumber : Int) (prettyFunction : String)
    (rest : LogData σ δ V → LogContextT σ δ V → List (Call V) →
      LogData σ δ V × LogContextT σ δ V × List (Call V))
    (v : V) (vs : List V) (format : String) (tr : List (Call V)) :
    LogContextT.new (NoLoggingLogContext : TypeSets σ δ V) id description tr
        = (noLoggingObject ⟨id, description⟩ false, tr)
      ∧ ((noLoggingObject ⟨id, description⟩ registered : LogContextT σ δ V).isEnabled
          level tr).1 = false
      ∧ ((noLoggingObject ⟨id, description⟩ registered : LogContextT σ δ V).isEnabled
          level tr).2.1 = noLoggingObject ⟨id, description⟩ true
      ∧ (log_with_context (noLoggingObject ⟨id, description⟩ registered : LogContextT σ δ V)
          level fileName lineNumber prettyFunction rest tr).built = []
      ∧ (noLoggingObject ⟨id, description⟩ registered : LogContextT σ δ V).createLog
          level fileName lineNumber prettyFunction tr
          = ({ toLogInfo := ⟨level, fileName, lineNumber, prettyFunction⟩, m_contexts := [] }, tr)
      ∧ ({ toLogInfo := ⟨level, fileName, lineNumber, prettyFunction⟩,
           m_contexts := [] } : LogData σ δ V).stream
            (noLoggingObject ⟨id, description⟩ registered) v tr
          = ({ toLogInfo := ⟨level, fileName, lineNumber, prettyFunction⟩, m_contexts := [] }, tr)
      ∧ ({ toLogInfo := ⟨level, fileName, lineNumber, prettyFunction⟩,
           m_contexts := [] } : LogData σ δ V).writeFormatted
            (noLoggingObject ⟨id, description⟩ registered) format vs tr
          = ({ toLogInfo := ⟨level, fileName, lineNumber, prettyFunction⟩, m_contexts := [] }, tr)
      ∧ (({ toLogInfo := ⟨level, fileName, lineNumber, prettyFunction⟩,
            m_contexts := [] } : LogData σ δ V).write
            (noLoggingObject ⟨id, description⟩ registered) vs tr).1
          = { toLogInfo := ⟨level, fileName, lineNumber, prettyFunction⟩, m_contexts := [] }
      ∧ backendCalls
          (({ toLogInfo := ⟨level, fileName, lineNumber, prettyFunction⟩,
              m_contexts := [] } : LogData σ δ V).write
            (noLoggingObject ⟨id, description⟩ registered) vs tr).2.2
          = backendCalls tr := by
  have hen : ∀ (l : LogLevel) (t : List (Call V)),
      ((noLoggingObject ⟨id, description⟩ registered : LogContextT σ δ V).isEnabled l t).1
        = false := by
    intro l t
    rw [isEnabled_eq, checkContext_eq]
    cases registered <;> simp [noLoggingObject]
  refine ⟨?_, hen level tr, ?_, ?_, ?_, ?_, ?_, ?_, ?_⟩
  · simp [LogContextT.new, for_each_in_tuple__eq, forEachFrom, NoLoggingLogContext,
      noLoggingObject]
  · rw [isEnabled_eq, checkContext_eq]
    cases registered <;> simp [noLoggingObject]
  · rw [(log_with_context_unfold _ level fileName lineNumber prettyFunction rest tr)]
    simp [hen]
  · simp [LogContextT.createLog, LogData_new_eq, initFrom, noLoggingObject]
  · simp [stream_eq, callsFrom, mapFrom]
  · simp [writeFormatted_eq, callsFrom, mapFrom]
  · cases vs with
    | nil => simp [LogData.write]
    | cons a vs => simp [LogData.write, hen]
  · cases vs with
    | nil => simp [LogData.write]
    | cons a vs =>
      simp only [LogData.write, hen, LogInfo.getLogLevel]
      rw [isEnabled_eq, checkContext_eq]
      cases registered <;>
        simp [noLoggingObject, callsFrom, backendCalls, Call.isBackendCall, List.filter_append]

end Claims

section Registration

variable {σ δ V : Type}

theorem isEnabled_contexts_of_registered (c : LogContextT σ δ V) (level : LogLevel)
    (tr : List (Call V)) (h : c.m_bRegistered = true) :
    (c.isEnabled level tr).2.1.m_contexts
      = c.m_contexts.map
          (fun b => ({ vt := b.vt, st := (b.vt.isEnabled b.st level).2 } : ContextObj σ)) := by
  rw [isEnabled_eq, checkContext_eq]
  simp [h, ContextObj.queried]

theorem isEnabled_contexts_of_unregistered (c : LogContextT σ δ V) (level : LogLevel)
    (tr : List (Call V)) (h : c.m_bRegistered = false) :
    (c.isEnabled level tr).2.1.m_contexts
      = c.m_contexts.map
          (fun b => ({ vt := b.vt,
                       st := (b.vt.isEnabled (b.vt.registerContext b.st) level).2 } :
            ContextObj σ)) := by
  rw [isEnabled_eq, checkContext_eq]
  simp [h, ContextObj.queried, ContextObj.registered, Function.comp_def]

theorem run_checks_and_creates (post : List (Op V)) :
    ∀ (s : RunState σ δ V), s.context.m_bRegistered = true →
      (∀ op ∈ post, (∃ l, op = Op.isEnabled l) ∨ ∃ l f n p, op = Op.createLog l f n p) →
      (run s post).context.m_contexts
        = s.context.m_contexts.map
            (fun b => ({ vt := b.vt,
                         st := (checkLevels post).foldl (fun st l => (b.vt.isEnabled st l).2)
                           b.st } : ContextObj σ)) := by
  induction post with
  | nil =>
    intro s _ _
    simp [run, checkLevels]
  | cons op post ih =>
    intro s hreg hops
    have hrest : ∀ o ∈ post,
        (∃ l, o = Op.isEnabled l) ∨ ∃ l f n p, o = Op.createLog l f n p :=
      fun o ho => hops o (List.mem_cons_of_mem _ ho)
    have hstep := step_of_registered 0 s op hreg
    have h := ih (step s op) hstep.1 hrest
    simp only [run, List.foldl_cons] at h ⊢
    rw [h]
    rcases hops op (List.mem_cons_self _ _) with ⟨l, rfl⟩ | ⟨l, f, n, p, rfl⟩
    · show List.map _ (s.context.isEnabled l s.trace).2.1.m_contexts = _
      rw [isEnabled_contexts_of_registered _ _ _ hreg]
      simp [checkLevels, Function.comp_def]
    · show List.map _ s.context.m_contexts = _
      simp [checkLevels]

/-- C4: take a context whose registration flag is not set (as construction
leaves it) and any sequence of calls made up of `createLog` calls `pre`, then
the first `isEnabled` call, then any further calls `post`.  Up to the first
`isEnabled` call no sub-context is registered and the context is as it was;
that call makes, after `setDefaultAPPIDSIfNeeded`, one `registerContext` call
on every sub-context, all together and in index order, before it asks any of
them; and whatever follows, each sub-context has been registered exactly once
in total.  The backends see it in their state: when `post` consists of
`isEnabled` and `createLog` calls, every sub-context ends in the state that
one `registerContext()` on its initial state, followed by the `isEnabled`
queries of the sequence, leaves. -/
theorem registerContext_exactly_once (c : LogContextT σ δ V) (tr : List (Call V))
    (hunreg : c.m_bRegistered = false) (pre post : List (Op V)) (level : LogLevel)
    (hpre : ∀ op ∈ pre, ∃ l f n p, op = Op.createLog l f n p)
    (i : Nat) (hi : i < c.m_contexts.length) :
    registrations i (run { context := c, builder := none, trace := tr } pre).trace
        = registrations i tr
      ∧ (run { context := c, builder := none, trace := tr } (pre ++ [Op.isEnabled level])).trace
        = (run { context := c, builder := none, trace := tr } pre).trace
            ++ Call.setDefaultAPPIDSIfNeeded
              :: (List.range c.m_contexts.length).map Call.registerContext
            ++ (List.range c.m_contexts.length).map (fun j => Call.isEnabled j level)
      ∧ registrations i
          (run { context := c, builder := none, trace := tr } (pre ++ [Op.isEnabled level])).trace
        = registrations i tr + 1
      ∧ registrations i
          (run { context := c, builder := none, trace := tr }
            (pre ++ Op.isEnabled level :: post)).trace
        = registrations i tr + 1
      ∧ (run { context := c, builder := none, trace := tr } pre).context = c
      ∧ ((∀ op ∈ post, (∃ l, op = Op.isEnabled l) ∨ ∃ l f n p, op = Op.createLog l f n p) →
          (run { context := c, builder := none, trace := tr }
            (pre ++ Op.isEnabled level :: post)).context.m_contexts
            = c.m_contexts.map
                (fun b => ({ vt := b.vt,
                             st := (level :: checkLevels post).foldl
                               (fun st l => (b.vt.isEnabled st l).2)
                               (b.vt.registerContext b.st) } : ContextObj σ))) := by
  have hpre2 := run_createLogs i pre hpre { context := c, builder := none, trace := tr }
  have hctx : (run { context := c, builder := none, trace := tr } pre).context = c := hpre2.1
  have hstep : run { context := c, builder := none, trace := tr } (pre ++ [Op.isEnabled level])
      = step (run { context := c, builder := none, trace := tr } pre) (Op.isEnabled level) := by
    rw [run_append]
    rfl
  have hone : registrations i
      (run { context := c, builder := none, trace := tr } (pre ++ [Op.isEnabled level])).trace
        = registrations i tr + 1 := by
    rw [hstep]
    show registrations i ((run _ pre).context.isEnabled level (run _ pre).trace).2.2 = _
    rw [registrations_isEnabled_of_unregistered i _ level _ (by rw [hctx]; exact hunreg)
      (by rw [hctx]; exact hi), hpre2.2]
  have hsplit : pre ++ Op.isEnabled level :: post = (pre ++ [Op.isEnabled level]) ++ post := by
    simp
  have hreg : (run { context := c, builder := none, trace := tr }
      (pre ++ [Op.isEnabled level])).context.m_bRegistered = true := by
    rw [hstep]
    exact isEnabled_sets_registered _ _ _
  refine ⟨hpre2.2, ?_, hone, ?_, hctx, ?_⟩
  · rw [hstep]
    show ((run _ pre).context.isEnabled level (run _ pre).trace).2.2 = _
    rw [isEnabled_trace_of_unregistered _ level _ (by rw [hctx]; exact hunreg), hctx]
  · rw [hsplit, run_append, (run_of_registered i post _ hreg).2, hone]
  · intro hpost
    rw [hsplit, run_append, run_checks_and_creates post _ hreg hpost, hstep]
    show List.map _ ((run _ pre).context.isEnabled level (run _ pre).trace).2.1.m_contexts = _
    rw [isEnabled_contexts_of_unregistered _ _ _ (by rw [hctx]; exact hunreg), hctx]
    simp [Function.comp_def]

/-- Witness of C4: on a fresh two-backend context whose sub-contexts count
their registrations, `createLog`, `isEnabled`, `isEnabled`, `createLog`
registers sub-context 1 exactly once and leaves both counts at 1. -/
theorem registerContext_exactly_once_witness :
    registrations 1
        (run { context := Double.onOffContextObj, builder := none, trace := [] }
          ([Op.createLog LogLevel.Warning "main.cpp" 18 "main"]
            ++ Op.isEnabled LogLevel.Warning
              :: [Op.isEnabled LogLevel.Error,
                  Op.createLog LogLevel.Error "main.cpp" 19 "main"])).trace = 0 + 1
      ∧ (run { context := Double.onOffContextObj, builder := none, trace := [] }
          ([Op.createLog LogLevel.Warning "main.cpp" 18 "main"]
            ++ Op.isEnabled LogLevel.Warning
              :: [Op.isEnabled LogLevel.Error,
                  Op.createLog LogLevel.Error "main.cpp" 19 "main"])).context.m_contexts.map
          ContextObj.st = [1, 1] := by
  have h := registerContext_exactly_once Double.onOffContextObj [] rfl
    [Op.createLog LogLevel.Warning "main.cpp" 18 "main"]
    [Op.isEnabled LogLevel.Error, Op.createLog LogLevel.Error "main.cpp" 19 "main"]
    LogLevel.Warning
    (by
      intro op hop
      simp at hop
      exact ⟨_, _, _, _, hop⟩)
    1 (by decide)
  refine ⟨h.2.2.2.1, ?_⟩
  rw [h.2.2.2.2.2 (by
    intro op hop
    simp at hop
    rcases hop with rfl | rfl
    · exact Or.inl ⟨_, rfl⟩
    · exact Or.inr ⟨_, _, _, _, rfl⟩)]
  rfl

end Registration

section Write

variable {σ δ V : Type}

theorem appendsTo_append (i : Nat) (a b : List (Call V)) :
    appendsTo i (a ++ b) = appendsTo i a ++ appendsTo i b := by
  simp [appendsTo, List.filterMap_append]

theorem appendsTo_isEnabled (i : Nat) (c : LogContextT σ δ V) (level : LogLevel)
    (tr : List (Call V)) : appendsTo i (c.isEnabled level tr).2.2 = appendsTo i tr := by
  have h1 : ∀ ts : List (ContextObj σ),
      appendsTo i (callsFrom (fun J _ => [Call.isEnabled (V := V) J level]) 0 ts) = [] := by
    intro ts
    exact filterMap_callsFrom_nil _ _ (by intro J t; simp) ts 0
  have h2 : ∀ ts : List (ContextObj σ),
      appendsTo i (callsFrom (fun J _ => [Call.registerContext (V := V) J]) 0 ts) = [] := by
    intro ts
    exact filterMap_callsFrom_nil _ _ (by intro J t; simp) ts 0
  have h3 : ∀ l : List (Call V),
      appendsTo i (Call.setDefaultAPPIDSIfNeeded :: l) = appendsTo i l := by
    intro l
    simp [appendsTo]
  rw [isEnabled_eq, checkContext_eq]
  cases c.m_bRegistered <;> simp [appendsTo_append, h1, h2, h3]

theorem filterMap_callsFrom_beyond {τ α : Type} (sel : Call V → Option α)
    (ev : Nat → τ → List (Call V)) (i : Nat)
    (hsel : ∀ J t, J ≠ i → (ev J t).filterMap sel = []) (ts : List τ) :
    ∀ I, I + ts.length ≤ i → (callsFrom ev I ts).filterMap sel = [] := by
  induction ts with
  | nil =>
    intro I _
    simp [callsFrom]
  | cons t ts ih =>
    intro I hI
    simp only [List.length_cons] at hI
    simp only [callsFrom, List.filterMap_append]
    rw [hsel I t (by omega), ih (I + 1) (by omega)]
    simp

theorem stream_appendsTo_beyond (d : LogData σ δ V) (c : LogContextT σ δ V) (v : V)
    (tr : List (Call V)) (i : Nat) (hi : d.m_contexts[i]? = none) :
    appendsTo i (d.stream c v tr).2 = appendsTo i tr := by
  rw [stream_eq, appendsTo_append]
  have hlen : d.m_contexts.length ≤ i := by
    rcases Nat.lt_or_ge i d.m_contexts.length with h | h
    · rw [List.getElem?_eq_getElem h] at hi
      cases hi
    · exact h
  have : appendsTo i (callsFrom (streamCalls c.m_contexts v) 0 d.m_contexts) = [] := by
    unfold appendsTo
    apply filterMap_callsFrom_beyond _ _ i _ _ 0 (by omega)
    intro J t0 hJ
    unfold streamCalls
    split <;> simp [hJ]
  rw [this]
  simp

theorem stream_appendsTo_sublist (d : LogData σ δ V) (c : LogContextT σ δ V) (v : V)
    (tr : List (Call V)) (i : Nat) :
    ∃ l0, l0.Sublist [v] ∧ appendsTo i (d.stream c v tr).2 = appendsTo i tr ++ l0 := by
  cases hi : d.m_contexts[i]? with
  | none => exact ⟨[], by simp, by simp [stream_appendsTo_beyond d c v tr i hi]⟩
  | some t =>
    refine ⟨if t.enabled (subContextOf c.m_contexts i) then [v] else [], ?_,
      stream_appendsTo_at d c v tr i t hi⟩
    split <;> simp

theorem afterChecks_one (c : LogContextT σ δ V) (level : LogLevel) (tr : List (Call V)) :
    LogContextT.afterChecks level 1 c = (c.isEnabled level tr).2.1 := by
  simp only [LogContextT.afterChecks]
  exact (isEnabled_indep c level [] tr).2

theorem afterChecks_succ (c : LogContextT σ δ V) (level : LogLevel) (tr : List (Call V))
    (k : Nat) :
    LogContextT.afterChecks level (k + 1) c
      = LogContextT.afterChecks level k (c.isEnabled level tr).2.1 := by
  simp only [LogContextT.afterChecks]
  rw [(isEnabled_indep c level [] tr).2]

theorem enabledRun_le (vs : List V) :
    ∀ (d : LogData σ δ V) (c : LogContextT σ δ V) (tr : List (Call V)),
      d.enabledRun c vs tr ≤ vs.length := by
  induction vs with
  | nil =>
    intro d c tr
    simp [LogData.enabledRun]
  | cons v vs ih =>
    intro d c tr
    simp only [LogData.enabledRun, List.length_cons]
    split
    · exact Nat.succ_le_succ (ih _ _ _)
    · exact Nat.zero_le _

theorem allChecksTrue_enabledRun (vs : List V) :
    ∀ (d : LogData σ δ V) (c : LogContextT σ δ V) (tr : List (Call V)),
      d.allChecksTrue c (vs.take (d.enabledRun c vs tr)) tr = true := by
  induction vs with
  | nil =>
    intro d c tr
    simp [LogData.allChecksTrue]
  | cons v vs ih =>
    intro d c tr
    cases he : (c.isEnabled d.toLogInfo.getLogLevel tr).1 with
    | false => simp [LogData.enabledRun, he, LogData.allChecksTrue]
    | true => simp [LogData.enabledRun, he, LogData.allChecksTrue, ih]

theorem write_structure (vs : List V) :
    ∀ (d : LogData σ δ V) (c : LogContextT σ δ V) (tr : List (Call V)),
      (d.enabledRun c vs tr = vs.length ∧ d.write c vs tr = d.checkedChain c vs tr)
        ∨ (d.enabledRun c vs tr < vs.length
          ∧ ((d.checkedChain c (vs.take (d.enabledRun c vs tr)) tr).2.1.isEnabled
              d.toLogInfo.getLogLevel
              (d.checkedChain c (vs.take (d.enabledRun c vs tr)) tr).2.2).1 = false
          ∧ d.write c vs tr
              = ((d.checkedChain c (vs.take (d.enabledRun c vs tr)) tr).1,
                  ((d.checkedChain c (vs.take (d.enabledRun c vs tr)) tr).2.1.isEnabled
                    d.toLogInfo.getLogLevel
                    (d.checkedChain c (vs.take (d.enabledRun c vs tr)) tr).2.2).2)) := by
  induction vs with
  | nil =>
    intro d c tr
    left
    simp [LogData.enabledRun, LogData.write, LogData.checkedChain]
  | cons v vs ih =>
    intro d c tr
    cases he : (c.isEnabled d.toLogInfo.getLogLevel tr).1 with
    | false =>
      right
      simp [LogData.enabledRun, LogData.write, LogData.checkedChain, he]
    | true =>
      have hw : d.write c (v :: vs) tr
          = (d.stream (c.isEnabled d.toLogInfo.getLogLevel tr).2.1 v
                (c.isEnabled d.toLogInfo.getLogLevel tr).2.2).1.write
              (c.isEnabled d.toLogInfo.getLogLevel tr).2.1 vs
              (d.stream (c.isEnabled d.toLogInfo.getLogLevel tr).2.1 v
                (c.isEnabled d.toLogInfo.getLogLevel tr).2.2).2 := by
        simp [LogData.write, he]
      have hk : d.enabledRun c (v :: vs) tr
          = (d.stream (c.isEnabled d.toLogInfo.getLogLevel tr).2.1 v
                (c.isEnabled d.toLogInfo.getLogLevel tr).2.2).1.enabledRun
              (c.isEnabled d.toLogInfo.getLogLevel tr).2.1 vs
              (d.stream (c.isEnabled d.toLogInfo.getLogLevel tr).2.1 v
                (c.isEnabled d.toLogInfo.getLogLevel tr).2.2).2 + 1 := by
        simp [LogData.enabledRun, he]
      rcases ih (d.stream (c.isEnabled d.toLogInfo.getLogLevel tr).2.1 v
            (c.isEnabled d.toLogInfo.getLogLevel tr).2.2).1
          (c.isEnabled d.toLogInfo.getLogLevel tr).2.1
          (d.stream (c.isEnabled d.toLogInfo.getLogLevel tr).2.1 v
            (c.isEnabled d.toLogInfo.getLogLevel tr).2.2).2 with
        ⟨hk2, hfull⟩ | ⟨hk2, hfalse, hstop⟩
      · left
        refine ⟨by rw [hk, hk2]; simp, ?_⟩
        rw [hw, hfull]
        simp [LogData.checkedChain]
      · right
        rw [hk]
        refine ⟨by simpa using hk2, ?_, ?_⟩
        · simpa [LogData.checkedChain, stream_toLogInfo] using hfalse
        · rw [hw, hstop]
          simp [LogData.checkedChain, stream_toLogInfo]

theorem write_delivery_sublist (i : Nat) (vs : List V) :
    ∀ (d : LogData σ δ V) (c : LogContextT σ δ V) (tr : List (Call V)),
      ∃ l, l.Sublist (vs.take (d.enabledRun c vs tr))
        ∧ appendsTo i (d.write c vs tr).2.2 = appendsTo i tr ++ l := by
  induction vs with
  | nil =>
    intro d c tr
    exact ⟨[], by simp, by simp [LogData.write]⟩
  | cons v vs ih =>
    intro d c tr
    cases he : (c.isEnabled d.toLogInfo.getLogLevel tr).1 with
    | false =>
      refine ⟨[], by simp, ?_⟩
      simp [LogData.write, he, appendsTo_isEnabled]
    | true =>
      obtain ⟨l0, hl0, h0⟩ := stream_appendsTo_sublist d
        (c.isEnabled d.toLogInfo.getLogLevel tr).2.1 v
        (c.isEnabled d.toLogInfo.getLogLevel tr).2.2 i
      obtain ⟨l, hl, h⟩ := ih (d.stream (c.isEnabled d.toLogInfo.getLogLevel tr).2.1 v
            (c.isEnabled d.toLogInfo.getLogLevel tr).2.2).1
          (c.isEnabled d.toLogInfo.getLogLevel tr).2.1
          (d.stream (c.isEnabled d.toLogInfo.getLogLevel tr).2.1 v
            (c.isEnabled d.toLogInfo.getLogLevel tr).2.2).2
      refine ⟨l0 ++ l, ?_, ?_⟩
      · simp only [LogData.enabledRun, he, if_true, List.take_succ_cons]
        exact List.Sublist.append hl0 hl
      · simp only [LogData.write, he, if_true]
        rw [h, h0, appendsTo_isEnabled]
        simp

theorem write_delivery_exact (i : Nat) (vs : List V) :
    ∀ (d : LogData σ δ V) (c : LogContextT σ δ V) (tr : List (Call V)) (t : DataObj σ δ V),
      d.m_contexts[i]? = some t → (∀ st sub, t.vt.isEnabled st sub = true) →
        appendsTo i (d.write c vs tr).2.2
            = appendsTo i tr ++ vs.take (d.enabledRun c vs tr)
          ∧ (d.write c vs tr).1.m_contexts[i]?
            = some { vt := t.vt,
                     st := t.vt.appendAll t.st
                       (((List.range (d.enabledRun c vs tr)).map fun m =>
                          subContextOf
                            (LogContextT.afterChecks d.toLogInfo.getLogLevel (m + 1)
                              c).m_contexts i).zip
                        (vs.take (d.enabledRun c vs tr))) } := by
  induction vs with
  | nil =>
    intro d c tr t ht _
    simp [LogData.write, LogData.enabledRun, DataType.appendAll, ht]
  | cons v vs ih =>
    intro d c tr t ht hon
    cases he : (c.isEnabled d.toLogInfo.getLogLevel tr).1 with
    | false =>
      simp [LogData.write, LogData.enabledRun, he, DataType.appendAll, ht, appendsTo_isEnabled]
    | true =>
      have ht1 : (d.stream (c.isEnabled d.toLogInfo.getLogLevel tr).2.1 v
          (c.isEnabled d.toLogInfo.getLogLevel tr).2.2).1.m_contexts[i]?
            = some (t.appended
                (subContextOf (c.isEnabled d.toLogInfo.getLogLevel tr).2.1.m_contexts i) v) := by
        rw [stream_state_at, ht]
        simp [DataObj.streamed, DataObj.enabled, hon]
      have htr1 : appendsTo i (d.stream (c.isEnabled d.toLogInfo.getLogLevel tr).2.1 v
          (c.isEnabled d.toLogInfo.getLogLevel tr).2.2).2 = appendsTo i tr ++ [v] := by
        rw [stream_appendsTo_at d _ v _ i t ht, appendsTo_isEnabled]
        simp [DataObj.enabled, hon]
      have h := ih _ (c.isEnabled d.toLogInfo.getLogLevel tr).2.1
        (d.stream (c.isEnabled d.toLogInfo.getLogLevel tr).2.1 v
          (c.isEnabled d.toLogInfo.getLogLevel tr).2.2).2 _ ht1 hon
      simp only [LogData.write, LogData.enabledRun, he, if_true, List.take_succ_cons]
      refine ⟨by rw [h.1, htr1]; simp, ?_⟩
      rw [h.2]
      simp only [stream_toLogInfo, List.range_succ_eq_map, List.map_cons, List.map_map,
        List.zip_cons_cons, DataType.appendAll, List.foldl_cons, DataObj.appended,
        Function.comp_def]
      rw [afterChecks_one c d.toLogInfo.getLogLevel tr]
      simp only [afterChecks_succ c d.toLogInfo.getLogLevel tr]

/-- C5: for every entry builder and argument list `vs`, `write(vs...)`
re-checks `m_context.isEnabled(getLogLevel())` before each value and appends
the longest run of leading arguments for which every check returned true.
There is a `k` such that the first `k` checks return true and each is
followed by `*this << value`; then either `k` is the number of arguments, or
check `k + 1` returns false and `write` returns right after that check.  So
every sub-entry is appended values of `v1..vk` only, in order, (those at
which it reported enabled), and a sub-entry that always reports enabled is
appended exactly `v1..vk`: its trace of appends grows by `v1..vk`, and its
state is the one that appending them in order leaves, each append seeing the
sub-context as the check before it left it. -/
theorem write_appends_longest_enabled_run (vs : List V) (d : LogData σ δ V)
    (c : LogContextT σ δ V) (tr : List (Call V)) :
    ∃ k, k ≤ vs.length
      ∧ d.allChecksTrue c (vs.take k) tr = true
      ∧ ((k = vs.length ∧ d.write c vs tr = d.checkedChain c vs tr)
        ∨ (k < vs.length
          ∧ ((d.checkedChain c (vs.take k) tr).2.1.isEnabled d.toLogInfo.getLogLevel
              (d.checkedChain c (vs.take k) tr).2.2).1 = false
          ∧ d.write c vs tr
              = ((d.checkedChain c (vs.take k) tr).1,
                  ((d.checkedChain c (vs.take k) tr).2.1.isEnabled d.toLogInfo.getLogLevel
                    (d.checkedChain c (vs.take k) tr).2.2).2)))
      ∧ (∀ i, ∃ l, l.Sublist (vs.take k)
          ∧ appendsTo i (d.write c vs tr).2.2 = appendsTo i tr ++ l)
      ∧ (∀ (i : Nat) (t : DataObj σ δ V), d.m_contexts[i]? = some t →
          (∀ st sub, t.vt.isEnabled st sub = true) →
            appendsTo i (d.write c vs tr).2.2 = appendsTo i tr ++ vs.take k
              ∧ (d.write c vs tr).1.m_contexts[i]?
                = some { vt := t.vt,
                         st := t.vt.appendAll t.st
                           (((List.range k).map fun m =>
                              subContextOf
                                (LogContextT.afterChecks d.toLogInfo.getLogLevel (m + 1)
                                  c).m_contexts i).zip (vs.take k)) }) :=
  ⟨d.enabledRun c vs tr, enabledRun_le vs d c tr, allChecksTrue_enabledRun vs d c tr,
    write_structure vs d c tr, fun i => write_delivery_sublist i vs d c tr,
    fun i t ht hon => write_delivery_exact i vs d c tr t ht hon⟩

/-- Witness of C5: the context is enabled at the first check and disabled at
the second; of `write("a", "b")` only `"a"` reaches the sub-entry, which
always reports enabled. -/
theorem write_appends_longest_enabled_run_witness :
    appendsTo 0 (Double.onceData.write Double.onceContextObj ["a", "b"] []).2.2 = ["a"]
      ∧ (Double.onceData.write Double.onceContextObj ["a", "b"] []).1.m_contexts.map DataObj.st
          = [["a"]] := by
  obtain ⟨k, -, hall, hstruct, -, hexact⟩ :=
    write_appends_longest_enabled_run ["a", "b"] Double.onceData Double.onceContextObj []
  have hk : k = 1 := by
    rcases hstruct with ⟨hk, -⟩ | ⟨hk, hfalse, -⟩
    · exfalso
      subst hk
      simp [LogData.allChecksTrue, isEnabled_eq, checkContext_eq, Double.onceContextObj,
        Double.onceContext, ContextObj.answer, ContextObj.queried] at hall
    · simp only [List.length_cons, List.length_nil] at hk
      have hk01 : k = 0 ∨ k = 1 := by omega
      rcases hk01 with rfl | rfl
      · exfalso
        simp [LogData.checkedChain, isEnabled_eq, checkContext_eq, Double.onceContextObj,
          Double.onceContext, ContextObj.answer] at hfalse
      · rfl
  subst hk
  have h := hexact 0 ⟨Double.onData, []⟩ rfl (by intro st sub; rfl)
  refine ⟨by rw [h.1]; rfl, ?_⟩
  have hlen : (Double.onceData.write Double.onceContextObj ["a", "b"] []).1.m_contexts.length
      = 1 := by
    simp [LogData.write, isEnabled_eq, checkContext_eq, stream_eq, Double.onceContextObj,
      Double.onceData, Double.onceContext, ContextObj.answer, ContextObj.queried,
      LogInfo.getLogLevel, mapFrom]
  have h2 := h.2
  match hm : (Double.onceData.write Double.onceContextObj ["a", "b"] []).1.m_contexts, hlen,
      h2 with
  | [x], _, h2 =>
    simp only [hm] at h2
    simp only [List.getElem?_cons_zero, Option.some.injEq] at h2
    subst h2
    rfl

end Write

section Extension

variable {σ δ V : Type}

theorem LogContextT_new_eq (T : TypeSets σ δ V) (id contextDescription : String)
    (tr : List (Call V)) :
    LogContextT.new T id contextDescription tr
      = ({ toLogContextCommon := ⟨id, contextDescription⟩,
           LogDataTypes := T.LogDataTypes,
           m_contexts := (T.ContextTypes.map fun B => ({ vt := B, st := B.fresh } : ContextObj σ)).map
             (ContextObj.withParent ⟨id, contextDescription⟩),
           m_bRegistered := false },
          tr ++ callsFrom (fun J _ => [Call.setParentContext J]) 0
            (T.ContextTypes.map fun B => ({ vt := B, st := B.fresh } : ContextObj σ))) := by
  unfold LogContextT.new
  have h := forEachFrom_simple (V := V)
    (setParentContextFunctor (σ := σ) ⟨id, contextDescription⟩)
    (fun _ => ContextObj.withParent ⟨id, contextDescription⟩)
    (fun J _ => [Call.setParentContext J])
    (by intro I t tr; simp [setParentContextFunctor, ContextObj.withParent])
    (T.ContextTypes.map fun B => ({ vt := B, st := B.fresh } : ContextObj σ)) 0 tr
  simp [for_each_in_tuple__eq, h, mapFrom_const]

theorem registrations_setParentCalls {τ : Type} (i : Nat) (ts : List τ) :
    registrations i (callsFrom (fun J _ => [Call.setParentContext (V := V) J]) 0 ts) = 0 := by
  apply registrations_callsFrom_zero
  intro J t
  simp [registrations]

theorem createLog_subentry (c : LogContextT σ δ V) (log : LogInfo) (tr : List (Call V))
    (j : Nat) (D : DataType σ δ V) (b : ContextObj σ)
    (hD : c.LogDataTypes[j]? = some D) (hb : c.m_contexts[j]? = some b) :
    (initFrom log 0 (c.LogDataTypes.map fun E => ({ vt := E, st := E.fresh } : DataObj σ δ V))
        c.m_contexts tr).1[j]?
      = some { vt := D, st := D.init D.fresh b.st log } := by
  rw [initFrom_eq]
  have hjD : j < c.LogDataTypes.length := by
    rcases Nat.lt_or_ge j c.LogDataTypes.length with h | h
    · exact h
    · rw [List.getElem?_eq_none h] at hD
      cases hD
  have hjb : j < c.m_contexts.length := by
    rcases Nat.lt_or_ge j c.m_contexts.length with h | h
    · exact h
    · rw [List.getElem?_eq_none h] at hb
      cases hb
  rw [List.getElem?_append_left (by simp; omega)]
  simp [List.getElem?_zipWith, hD, hb, DataObj.inited]

end Extension

section Composition

variable {σ δ V : Type}

theorem extendAll_lists (extras : List (ContextType σ × DataType σ δ V)) :
    ∀ (T : TypeSets σ δ V),
      (T.extendAll extras).ContextTypes = T.ContextTypes ++ extras.map Prod.fst
        ∧ (T.extendAll extras).LogDataTypes = T.LogDataTypes ++ extras.map Prod.snd := by
  induction extras with
  | nil =>
    intro T
    simp [TypeSets.extendAll]
  | cons p extras ih =>
    intro T
    have h := ih (T.Extension p.1 p.2)
    simp only [TypeSets.extendAll, List.foldl_cons] at h ⊢
    rw [h.1, h.2]
    simp [TypeSets.Extension]

/-- C11: `Extension` of a context type with lists `[B1..Bn]` and `[D1..Dn]`
by `(B, D)` is the type with lists `[B1..Bn, B]` and `[D1..Dn, D]`; extending
`[A]` by `B` and then by `C` gives `[A, B, C]`; and a chain of extensions
gives the original lists followed by the attached backends, in attachment
order. -/
theorem extension_appends_at_end (T : TypeSets σ δ V) (B : ContextType σ) (D : DataType σ δ V)
    (A C : ContextType σ) (DA DC : DataType σ δ V)
    (extras : List (ContextType σ × DataType σ δ V)) :
    ((T.Extension B D).ContextTypes = T.ContextTypes ++ [B]
        ∧ (T.Extension B D).LogDataTypes = T.LogDataTypes ++ [D])
      ∧ ((((⟨[A], [DA]⟩ : TypeSets σ δ V).Extension B D).Extension C DC).ContextTypes = [A, B, C]
        ∧ (((⟨[A], [DA]⟩ : TypeSets σ δ V).Extension B D).Extension C DC).LogDataTypes
            = [DA, D, DC])
      ∧ ((T.extendAll extras).ContextTypes = T.ContextTypes ++ extras.map Prod.fst
        ∧ (T.extendAll extras).LogDataTypes = T.LogDataTypes ++ extras.map Prod.snd) :=
  ⟨⟨rfl, rfl⟩, ⟨rfl, rfl⟩, extendAll_lists extras T⟩

/-- C15: constructing a composite context with `n` attached backends makes
exactly `n` calls, `setParentContext` on sub-context 0, ..., on sub-context
`n - 1`: each sub-context is its default-constructed state after one
`setParentContext` with the identity (ID and description) of the context
being constructed.  No `registerContext` and no `isEnabled` call is made, and
the registration flag is false after construction. -/
theorem constructor_sets_parent_only (T : TypeSets σ δ V) (id contextDescription : String)
    (tr : List (Call V)) (i : Nat) :
    (LogContextT.new T id contextDescription tr).2
        = tr ++ (List.range T.ContextTypes.length).map Call.setParentContext
      ∧ (LogContextT.new T id contextDescription tr).1.m_contexts
        = T.ContextTypes.map (fun B =>
            ({ vt := B, st := B.setParentContext B.fresh ⟨id, contextDescription⟩ } :
              ContextObj σ))
      ∧ (LogContextT.new T id contextDescription tr).1.toLogContextCommon
        = ⟨id, contextDescription⟩
      ∧ (LogContextT.new T id contextDescription tr).1.m_bRegistered = false
      ∧ registrations i (LogContextT.new T id contextDescription tr).2 = registrations i tr := by
  rw [LogContextT_new_eq]
  refine ⟨?_, ?_, rfl, rfl, ?_⟩
  · simp [callsFrom_single_zero]
  · simp [ContextObj.withParent, Function.comp_def]
  · simp only [registrations_append]
    rw [registrations_setParentCalls]
    simp

/-- C16: `createLog` never registers.  Whatever the state of the context, a
sequence consisting only of `createLog` calls leaves the context, and so its
registration flag, as it was, and adds no `registerContext` call; and each
`createLog` runs the `init` of sub-entry `j` against sub-context `j` in the
state the context holds it in, registered or not. -/
theorem createLog_never_registers (c : LogContextT σ δ V) (tr : List (Call V))
    (ops : List (Op V)) (hops : ∀ op ∈ ops, ∃ l f n p, op = Op.createLog l f n p) (i : Nat) :
    (run { context := c, builder := none, trace := tr } ops).context = c
      ∧ registrations i (run { context := c, builder := none, trace := tr } ops).trace
        = registrations i tr
      ∧ ∀ (level : LogLevel) (fileName : String) (lineNumber : Int) (prettyFunction : String)
          (j : Nat) (D : DataType σ δ V) (b : ContextObj σ),
          c.LogDataTypes[j]? = some D → c.m_contexts[j]? = some b →
            (c.createLog level fileName lineNumber prettyFunction tr).1.m_contexts[j]?
              = some { vt := D,
                       st := D.init D.fresh b.st
                         ⟨level, fileName, lineNumber, prettyFunction⟩ } := by
  have h := run_createLogs i ops hops { context := c, builder := none, trace := tr }
  refine ⟨h.1, h.2, ?_⟩
  intro level fileName lineNumber prettyFunction j D b hD hb
  unfold LogContextT.createLog
  rw [LogData_new_eq]
  exact createLog_subentry c _ tr j D b hD hb

/-- Witness of C16: two `createLog` calls on a context that has never been
asked `isEnabled` leave it unregistered and register nothing. -/
theorem createLog_never_registers_witness :
    (run { context := Double.onOffContextObj, builder := none, trace := [] }
        [Op.createLog LogLevel.Warning "main.cpp" 18 "main",
          Op.createLog LogLevel.Error "main.cpp" 19 "main"]).context.m_bRegistered = false
      ∧ registrations 0
          (run { context := Double.onOffContextObj, builder := none, trace := [] }
            [Op.createLog LogLevel.Warning "main.cpp" 18 "main",
              Op.createLog LogLevel.Error "main.cpp" 19 "main"]).trace = 0 := by
  have h := createLog_never_registers Double.onOffContextObj []
    [Op.createLog LogLevel.Warning "main.cpp" 18 "main",
      Op.createLog LogLevel.Error "main.cpp" 19 "main"]
    (by
      intro op hop
      simp at hop
      rcases hop with rfl | rfl
      · exact ⟨_, _, _, _, rfl⟩
      · exact ⟨_, _, _, _, rfl⟩)
    0
  refine ⟨?_, ?_⟩
  · rw [h.1]
    rfl
  · rw [h.2.1]
    rfl

theorem streamAll_recData (render : V → String) (vs : List V) :
    ∀ (log : LogInfo) (l : Option LogLevel) (text : String)
        (c : LogContextT Nat (Option LogLevel × String) V) (tr : List (Call V)),
      (({ toLogInfo := log, m_contexts := [⟨Double.recData render, (l, text)⟩] } :
          LogData Nat (Option LogLevel × String) V).streamAll c vs tr).1
        = { toLogInfo := log,
            m_contexts :=
              [⟨Double.recData render, (l, vs.foldl (fun t v => t ++ render v) text)⟩] } := by
  induction vs with
  | nil =>
    intro log l text c tr
    simp [LogData.streamAll]
  | cons v vs ih =>
    intro log l text c tr
    simp only [LogData.streamAll, List.foldl_cons]
    rw [stream_eq]
    simp only [mapFrom, DataObj.streamed, DataObj.enabled, DataObj.appended,
      Double.recData, if_true]
    exact ih log l (text ++ render v) c _

theorem recorded_of_guarded_stream (render : V → String) (S : LogLevel) (vs : List V)
    (id contextDescription fileName : String) (lineNumber : Int) (prettyFunction : String)
    (tr : List (Call V)) :
    Double.recorded
        (log_with_context (LogContextT.new (Double.recTypes render) id contextDescription tr).1
          S fileName lineNumber prettyFunction (Double.streamRest vs)
          (LogContextT.new (Double.recTypes render) id contextDescription tr).2)
      = [(some S, vs.foldl (fun text v => text ++ render v) "")] := by
  rw [log_with_context_unfold]
  have hen : ((LogContextT.new (Double.recTypes render) id contextDescription tr).1.isEnabled S
      (LogContextT.new (Double.recTypes render) id contextDescription tr).2).1 = true := by
    rw [isEnabled_result]
    simp [LogContextT_new_eq, Double.recTypes, Double.onContext, ContextObj.answer,
      ContextObj.registered, ContextObj.withParent]
  rw [if_pos hen]
  simp only [Double.recorded, Double.streamRest, List.flatMap_cons, List.flatMap_nil,
    List.append_nil]
  have hlog : (((LogContextT.new (Double.recTypes render) id contextDescription tr).1.isEnabled S
      (LogContextT.new (Double.recTypes render) id contextDescription tr).2).2.1.createLog S
      fileName lineNumber prettyFunction
      ((LogContextT.new (Double.recTypes render) id contextDescription tr).1.isEnabled S
        (LogContextT.new (Double.recTypes render) id contextDescription tr).2).2.2).1
        = { toLogInfo := ⟨S, fileName, lineNumber, prettyFunction⟩,
            m_contexts := [⟨Double.recData render, (some S, "")⟩] } := by
    simp [LogContextT.createLog, LogData_new_eq, isEnabled_eq, checkContext_eq,
      LogContextT_new_eq, Double.recTypes, initFrom, Double.recData, LogInfo.getLogLevel]
  rw [hlog, streamAll_recData]
  rfl

/-- C13: for a context with exactly one attached test backend that is enabled
and records (severity, text) pairs, one guarded log statement at severity `S`
streaming the values `vs` leaves exactly one recorded entry, with severity `S`
and, as text, the renderings of the values concatenated in order; for
Warning, `"value="` and the integer 42 the one entry is
`(Warning, "value=42")`. -/
theorem guarded_statement_records_one_entry (render : V → String) (S : LogLevel) (vs : List V)
    (id contextDescription fileName : String) (lineNumber : Int) (prettyFunction : String)
    (tr : List (Call V)) :
    Double.recorded
        (log_with_context (LogContextT.new (Double.recTypes render) id contextDescription tr).1
          S fileName lineNumber prettyFunction (Double.streamRest vs)
          (LogContextT.new (Double.recTypes render) id contextDescription tr).2)
        = [(some S, vs.foldl (fun text v => text ++ render v) "")]
      ∧ Double.recorded
          (log_with_context
            (LogContextT.new (Double.recTypes Double.Value.render) "TEST" "Test context" []).1
            LogLevel.Warning "main.cpp" 18 "main"
            (Double.streamRest [Double.Value.str "value=", Double.Value.int 42])
            (LogContextT.new (Double.recTypes Double.Value.render) "TEST" "Test context" []).2)
        = [(some LogLevel.Warning, "value=42")] := by
  refine ⟨recorded_of_guarded_stream render S vs id contextDescription fileName lineNumber
    prettyFunction tr, ?_⟩
  rw [recorded_of_guarded_stream]
  decide

end Composition

section WriteAndChain

variable {σ δ V : Type}

theorem stream_of_sameView (d : LogData σ δ V) (c c2 : LogContextT σ δ V) (v : V)
    (tr tr2 : List (Call V)) (h : d.sameView c c2) :
    (d.stream c2 v tr2).1 = (d.stream c v tr).1
      ∧ ∃ calls, (d.stream c2 v tr2).2 = tr2 ++ calls ∧ (d.stream c v tr).2 = tr ++ calls := by
  rw [stream_eq, stream_eq]
  have hmap : mapFrom (DataObj.streamed c2.m_contexts v) 0 d.m_contexts
      = mapFrom (DataObj.streamed c.m_contexts v) 0 d.m_contexts := by
    apply mapFrom_congr
    intro j t hj
    have hs := h j t hj
    simp only [Nat.zero_add, DataObj.streamed, DataObj.enabled, DataObj.appended,
      (hs t.st v).1, (hs t.st v).2]
  have hcalls : callsFrom (streamCalls c2.m_contexts v) 0 d.m_contexts
      = callsFrom (streamCalls c.m_contexts v) 0 d.m_contexts := by
    apply callsFrom_congr
    intro j t hj
    have hs := h j t hj
    simp only [Nat.zero_add, streamCalls, DataObj.enabled, (hs t.st v).1]
  exact ⟨by simp only [hmap], _, by rw [hcalls], rfl⟩

theorem sameView_stream (d : LogData σ δ V) (a b c : LogContextT σ δ V) (v : V)
    (tr : List (Call V)) (h : d.sameView a b) : (d.stream c v tr).1.sameView a b := by
  intro j t hj
  rw [stream_state_at] at hj
  cases hd : d.m_contexts[j]? with
  | none => simp [hd] at hj
  | some t0 =>
    simp only [hd, Option.map_some', Option.some.injEq] at hj
    have hvt : t.vt = t0.vt := by
      rw [← hj]
      unfold DataObj.streamed DataObj.appended
      split <;> rfl
    rw [hvt]
    exact h j t0 hd

theorem write_vs_streamAll (vs : List V) (c0 : LogContextT σ δ V) :
    ∀ (d : LogData σ δ V) (c : LogContextT σ δ V) (tr tr0 : List (Call V)),
      d.allChecksTrue c vs tr = true →
      (∀ k, k ≤ vs.length →
        d.sameView c0 (LogContextT.afterChecks d.toLogInfo.getLogLevel k c)) →
        (d.write c vs tr).1 = (d.streamAll c0 vs tr0).1
          ∧ ∀ i, ∃ l, appendsTo i (d.write c vs tr).2.2 = appendsTo i tr ++ l
              ∧ appendsTo i (d.streamAll c0 vs tr0).2 = appendsTo i tr0 ++ l := by
  induction vs with
  | nil =>
    intro d c tr tr0 _ _
    refine ⟨rfl, fun i => ⟨[], ?_, ?_⟩⟩ <;> simp [LogData.write, LogData.streamAll]
  | cons v vs ih =>
    intro d c tr tr0 hall hview
    simp only [LogData.allChecksTrue, Bool.and_eq_true] at hall
    obtain ⟨he, hrest⟩ := hall
    have h1 := hview 1 (by simp)
    rw [afterChecks_one c d.toLogInfo.getLogLevel tr] at h1
    obtain ⟨hd, calls, hc1, hc0⟩ := stream_of_sameView d c0
      (c.isEnabled d.toLogInfo.getLogLevel tr).2.1 v tr0
      (c.isEnabled d.toLogInfo.getLogLevel tr).2.2 h1
    have hview2 : ∀ k, k ≤ vs.length →
        (d.stream (c.isEnabled d.toLogInfo.getLogLevel tr).2.1 v
          (c.isEnabled d.toLogInfo.getLogLevel tr).2.2).1.sameView c0
          (LogContextT.afterChecks
            (d.stream (c.isEnabled d.toLogInfo.getLogLevel tr).2.1 v
              (c.isEnabled d.toLogInfo.getLogLevel tr).2.2).1.toLogInfo.getLogLevel k
            (c.isEnabled d.toLogInfo.getLogLevel tr).2.1) := by
      intro k hk
      apply sameView_stream
      rw [stream_toLogInfo, ← afterChecks_succ c d.toLogInfo.getLogLevel tr k]
      exact hview (k + 1) (by simpa using hk)
    obtain ⟨hb, happ⟩ := ih _ _ _ (d.stream c0 v tr0).2 hrest hview2
    simp only [LogData.write, he, if_true, LogData.streamAll]
    refine ⟨by rw [hb, hd], ?_⟩
    intro i
    obtain ⟨l, hl1, hl0⟩ := happ i
    refine ⟨appendsTo i calls ++ l, ?_, ?_⟩
    · rw [hl1, hc1, appendsTo_append, appendsTo_isEnabled]
      simp
    · rw [hd] at hl0
      rw [hl0, hc0, appendsTo_append]
      simp

/-- C17, as stated, fails for a sub-entry that rechecks the sub-context it is
handed by reference.  The context has never been asked `isEnabled`; its one
backend always reports enabled, and its sub-entry reports enabled once the
sub-context has been registered.  The one check `write("a")` makes returns
true and registers the sub-context, so `"a"` is appended; the chain
`builder << "a"` makes no check, the sub-context is still unregistered and
nothing is appended. -/
theorem write_registers_before_it_streams :
    Double.liveBuilder.allChecksTrue Double.liveContextObj ["a"] [] = true
      ∧ appendsTo 0 (Double.liveBuilder.write Double.liveContextObj ["a"] []).2.2 = ["a"]
      ∧ appendsTo 0 (Double.liveBuilder.streamAll Double.liveContextObj ["a"] []).2 = []
      ∧ (Double.liveBuilder.write Double.liveContextObj ["a"] []).1.m_contexts.map DataObj.st
          = [["a"]]
      ∧ (Double.liveBuilder.streamAll Double.liveContextObj ["a"] []).1.m_contexts.map DataObj.st
          = [[]] := by
  simp [LogData.allChecksTrue, LogData.write, LogData.streamAll, isEnabled_eq, checkContext_eq,
    stream_eq, Double.liveContextObj, Double.liveBuilder, Double.liveData, Double.onContext,
    ContextObj.answer, ContextObj.queried, ContextObj.registered, LogInfo.getLogLevel,
    callsFrom, mapFrom, streamCalls, subContextOf, DataObj.enabled, DataObj.streamed,
    DataObj.appended, appendsTo]

/-- C17, amended: for every entry builder and values `vs`, if the composite
context's `isEnabled(severity)` returns true at each of the checks `write`
makes, and every sub-entry answers `isEnabled()` and appends on its
sub-context as the checks leave it in the same way as on the sub-context
before them, then `write(vs...)` returns the builder that the chain
`builder << v1 << ... << vn` returns, and every sub-entry has been appended
the same sequence of values by the one as by the other; `write()` with no
argument changes nothing and makes no call. -/
theorem write_is_stream_chain_when_enabled (d : LogData σ δ V) (c : LogContextT σ δ V)
    (vs : List V) (tr : List (Call V))
    (hall : d.allChecksTrue c vs tr = true)
    (hview : ∀ k, k ≤ vs.length →
      d.sameView c (LogContextT.afterChecks d.toLogInfo.getLogLevel k c)) :
    (d.write c vs tr).1 = (d.streamAll c vs tr).1
      ∧ (∀ i, appendsTo i (d.write c vs tr).2.2 = appendsTo i (d.streamAll c vs tr).2)
      ∧ d.write c [] tr = (d, c, tr) := by
  obtain ⟨hb, happ⟩ := write_vs_streamAll vs c d c tr tr hall hview
  refine ⟨hb, ?_, rfl⟩
  intro i
  obtain ⟨l, h1, h0⟩ := happ i
  rw [h1, h0]

/-- Witness of the amended C17: on a context that has never been asked
`isEnabled`, with sub-entries that do not look at their sub-context,
`write("a", "b")` and `<< "a" << "b"` both append `"a"`, `"b"` to each
sub-entry. -/
theorem write_is_stream_chain_when_enabled_witness :
    (∀ i, appendsTo i (Double.onOnData.write Double.onOffContextObj ["a", "b"] []).2.2
        = appendsTo i (Double.onOnData.streamAll Double.onOffContextObj ["a", "b"] []).2)
      ∧ appendsTo 1 (Double.onOnData.streamAll Double.onOffContextObj ["a", "b"] []).2
          = ["a", "b"] := by
  have h := write_is_stream_chain_when_enabled Double.onOnData Double.onOffContextObj
    ["a", "b"] []
    (by
      simp [LogData.allChecksTrue, isEnabled_eq, checkContext_eq, Double.onOffContextObj,
        Double.onContext, Double.offContext, ContextObj.answer, ContextObj.queried,
        ContextObj.registered])
    (by
      intro k _ j t hj st v
      have ht : t.vt = Double.onData := by
        match j, hj with
        | 0, hj =>
          simp only [Double.onOnData, List.getElem?_cons_zero, Option.some.injEq] at hj
          rw [← hj]
        | 1, hj =>
          simp only [Double.onOnData, List.getElem?_cons_succ, List.getElem?_cons_zero,
            Option.some.injEq] at hj
          rw [← hj]
        | j + 2, hj => simp [Double.onOnData] at hj
      rw [ht]
      exact ⟨rfl, rfl⟩)
  refine ⟨h.2.1, ?_⟩
  simp [LogData.streamAll, stream_eq, Double.onOnData, Double.onData, callsFrom, streamCalls,
    DataObj.enabled, DataObj.streamed, DataObj.appended, appendsTo]

end WriteAndChain

section Builder

set_option maxRecDepth 1000000 in
theorem ostreamInt_ne_ostreamChar_unsigned :
    ∀ v : Fin 256, ostreamInt ((v.val : Nat) : Int) ≠ ostreamChar v.val := by
  decide

set_option maxRecDepth 1000000 in
theorem ostreamInt_ne_ostreamChar_signed :
    ∀ v : Fin 256,
      ostreamInt ((v.val : Int) - 128) ≠ ostreamChar ((((v.val : Int) - 128) % 256).toNat) := by
  decide

theorem string_append_left_cancel (a b c : String) (h : a ++ b = a ++ c) : b = c := by
  have h2 := congrArg String.data h
  simp only [String.data_append] at h2
  exact String.ext (List.append_cancel_left h2)

theorem ostreamInt_decimal (n : Int) :
    ostreamInt n = if n < 0 then "-" ++ Nat.repr (-n).toNat else Nat.repr n.toNat := by
  cases n with
  | ofNat m =>
    have : ¬ ((Int.ofNat m) < 0) := by simp
    rw [if_neg this]
    rfl
  | negSucc m =>
    have : (Int.negSucc m) < 0 := Int.negSucc_lt_zero m
    rw [if_pos this]
    rfl

/-- C12, as stated, fails for a builder whose stream has been put into another
conversion base: the template `operator<<` hands a manipulator to `m_stream`,
and after `builder << std::hex` the 8-bit value 65 is rendered `"41"`, not
`"65"` (and not `"A"`). -/
theorem stringBuilder_renders_in_current_base :
    (((StringBuilder.empty Double.baseModel).stream Double.hex ()).streamUInt8
        Double.baseModel 65).str = "41"
      ∧ (((StringBuilder.empty Double.baseModel).stream Double.hex ()).streamUInt8
          Double.baseModel 65).str ≠ "65"
      ∧ (((StringBuilder.empty Double.baseModel).stream Double.hex ()).streamUInt8
          Double.baseModel 65).str ≠ "A" := by
  decide

/-- C12, amended: for every `StringBuilder` whose stream is in the format
state of a default-constructed stream, every unsigned 8-bit value `v` and
every signed 8-bit value `w`, streaming it into the builder appends the
decimal digits of its numeric value (after a `-` for a negative `w`) to the
accumulated text, and not the character with that code, and leaves the format
state as it is; the 8-bit value 65 streamed into an empty builder gives
`str() = "65"`, not `"A"`.  In any format state the text appended is what the
stream writes for the value as an `int` in that state. -/
theorem stringBuilder_renders_8bit_as_number {φ : Type} (M : StreamModel φ)
    (sb : StringBuilder φ) (v : Nat) (w : Int) (hv : v < 256) (hw : -128 ≤ w ∧ w ≤ 127)
    (hfmt : sb.m_stream.format = M.initial) :
    (sb.streamUInt8 M v).str = sb.str ++ Nat.repr v
      ∧ (sb.streamUInt8 M v).str ≠ sb.str ++ ostreamChar v
      ∧ (sb.streamUInt8 M v).m_stream.format = M.initial
      ∧ (sb.streamInt8 M w).str
          = sb.str ++ (if w < 0 then "-" ++ Nat.repr (-w).toNat else Nat.repr w.toNat)
      ∧ (sb.streamInt8 M w).str ≠ sb.str ++ ostreamChar (w % 256).toNat
      ∧ (sb.streamInt8 M w).m_stream.format = M.initial
      ∧ ((StringBuilder.empty M).streamUInt8 M 65).str = "65"
      ∧ ((StringBuilder.empty M).streamUInt8 M 65).str ≠ "A"
      ∧ (∀ (any : StringBuilder φ),
          (any.streamUInt8 M v).str = any.str ++ (M.writeInt any.m_stream.format (v : Int)).1
            ∧ (any.streamInt8 M w).str = any.str ++ (M.writeInt any.m_stream.format w).1) := by
  have hvmod : v % 256 = v := Nat.mod_eq_of_lt hv
  have hwmod : (w + 128) % 256 - 128 = w := by omega
  refine ⟨?_, ?_, ?_, ?_, ?_, ?_, ?_, ?_, ?_⟩
  · simp only [StringBuilder.streamUInt8, StringBuilder.str, hvmod, hfmt, M.writeInt_initial]
    rfl
  · simp only [StringBuilder.streamUInt8, StringBuilder.str, hvmod, hfmt, M.writeInt_initial]
    intro h
    exact ostreamInt_ne_ostreamChar_unsigned ⟨v, hv⟩ (string_append_left_cancel _ _ _ h)
  · simp only [StringBuilder.streamUInt8, hfmt, M.writeInt_initial]
  · simp only [StringBuilder.streamInt8, StringBuilder.str, hwmod, hfmt, M.writeInt_initial]
    rw [ostreamInt_decimal]
  · simp only [StringBuilder.streamInt8, StringBuilder.str, hwmod, hfmt, M.writeInt_initial]
    intro h
    have hlt : (w + 128).toNat < 256 := by omega
    have hcast : (((⟨(w + 128).toNat, hlt⟩ : Fin 256).val : Nat) : Int) - 128 = w := by
      simp only
      omega
    have := ostreamInt_ne_ostreamChar_signed ⟨(w + 128).toNat, hlt⟩
    rw [hcast] at this
    exact this (string_append_left_cancel _ _ _ h)
  · simp only [StringBuilder.streamInt8, hfmt, M.writeInt_initial]
  · simp only [StringBuilder.streamUInt8, StringBuilder.empty, StringBuilder.str,
      M.writeInt_initial]
    decide
  · simp only [StringBuilder.streamUInt8, StringBuilder.empty, StringBuilder.str,
      M.writeInt_initial]
    decide
  · intro any
    constructor
    · simp only [StringBuilder.streamUInt8, StringBuilder.str, hvmod]
    · simp only [StringBuilder.streamInt8, StringBuilder.str, hwmod]

/-- Witness of the amended C12: 200 and -3 streamed after the text `"x"` into a
builder whose stream is in decimal, its default base. -/
theorem stringBuilder_renders_8bit_as_number_witness :
    (({ m_stream := { text := "x", format := Double.Base.dec } } :
          StringBuilder Double.Base).streamUInt8 Double.baseModel 200).str = "x" ++ Nat.repr 200
      ∧ (({ m_stream := { text := "x", format := Double.Base.dec } } :
          StringBuilder Double.Base).streamInt8 Double.baseModel (-3)).str
          = "x" ++ (if (-3 : Int) < 0 then "-" ++ Nat.repr (-(-3 : Int)).toNat
              else Nat.repr (-3 : Int).toNat) :=
  ⟨(stringBuilder_renders_8bit_as_number Double.baseModel
      { m_stream := { text := "x", format := Double.Base.dec } } 200 (-3) (by decide)
      (by decide) rfl).1,
    (stringBuilder_renders_8bit_as_number Double.baseModel
      { m_stream := { text := "x", format := Double.Base.dec } } 200 (-3) (by decide)
      (by decide) rfl).2.2.2.1⟩

end Builder

section Threads

variable {σ δ V : Type}

theorem checkContextBody_eq (c : LogContextT σ δ V) (tr : List (Call V)) :
    c.checkContextBody tr
      = ({ c with m_contexts := c.m_contexts.map ContextObj.registered,
                  m_bRegistered := true },
          tr ++ Call.setDefaultAPPIDSIfNeeded
            :: callsFrom (fun J _ => [Call.registerContext J]) 0 c.m_contexts) := by
  unfold LogContextT.checkContextBody
  have h := forEachFrom_simple (V := V) registerContextFunctor
    (fun _ => ContextObj.registered) (fun J _ => [Call.registerContext J])
    (by intro I t tr; simp [registerContextFunctor, ContextObj.registered]) c.m_contexts 0
    (tr ++ [Call.setDefaultAPPIDSIfNeeded])
  simp [for_each_in_tuple__eq, h, mapFrom_const]

theorem checkContext_test_then_body (c : LogContextT σ δ V) (tr : List (Call V)) :
    c.checkContext tr = if c.checkContextTest then c.checkContextBody tr else (c, tr) := by
  unfold LogContextT.checkContext LogContextT.checkContextTest LogContextT.checkContextBody
  rfl

/-- C14 fails in the code: `checkContext` tests the plain `bool m_bRegistered`
and sets it only at the end of the body, without a lock.  Two threads make the
first `isEnabled` call on a context with two backends that has never been
checked; both read the flag before either has run the body (schedule: thread
0 tests, thread 1 tests, thread 0 runs the body, thread 1 runs the body).
Every backend's `registerContext` is then invoked twice.  A thread alone, and
two threads one after the other, register once: for one thread the two steps
are `checkContext`. -/
theorem checkContext_registers_twice_under_race :
    registrations 0 ((Race.start Double.onOffContextObj [] 2).run [0, 1, 0, 1]).trace = 2
      ∧ registrations 1 ((Race.start Double.onOffContextObj [] 2).run [0, 1, 0, 1]).trace = 2
      ∧ ((Race.start Double.onOffContextObj [] 2).run [0, 1, 0, 1]).context.m_contexts.map
          ContextObj.st = [2, 2]
      ∧ ((Race.start Double.onOffContextObj [] 2).run [0, 1, 0, 1]).pcs
          = [CheckPc.past, CheckPc.past]
      ∧ registrations 0 ((Race.start Double.onOffContextObj [] 2).run [0, 0, 1, 1]).trace = 1
      ∧ registrations 1 ((Race.start Double.onOffContextObj [] 2).run [0, 0, 1, 1]).trace = 1
      ∧ (∀ (c : LogContextT σ δ V) (tr : List (Call V)),
          ((Race.start c tr 1).run [0, 0]).context = (c.checkContext tr).1
            ∧ ((Race.start c tr 1).run [0, 0]).trace = (c.checkContext tr).2
            ∧ ((Race.start c tr 1).run [0, 0]).pcs = [CheckPc.past]) := by
  refine ⟨?_, ?_, ?_, ?_, ?_, ?_, ?_⟩
  · simp [Race.run, Race.step, Race.start, LogContextT.checkContextTest, checkContextBody_eq,
      Double.onOffContextObj, callsFrom, registrations]
  · simp [Race.run, Race.step, Race.start, LogContextT.checkContextTest, checkContextBody_eq,
      Double.onOffContextObj, callsFrom, registrations]
  · simp [Race.run, Race.step, Race.start, LogContextT.checkContextTest, checkContextBody_eq,
      Double.onOffContextObj, ContextObj.registered, Double.onContext, Double.offContext]
  · simp [Race.run, Race.step, Race.start, LogContextT.checkContextTest, checkContextBody_eq,
      Double.onOffContextObj]
  · simp [Race.run, Race.step, Race.start, LogContextT.checkContextTest, checkContextBody_eq,
      Double.onOffContextObj, callsFrom, registrations]
  · simp [Race.run, Race.step, Race.start, LogContextT.checkContextTest, checkContextBody_eq,
      Double.onOffContextObj, callsFrom, registrations]
  · intro c tr
    rw [checkContext_test_then_body]
    cases h : c.checkContextTest <;>
      simp [Race.run, Race.step, Race.start, h]

end Threads

end logging
